import Mathlib

/-!
Verification development for the WebRig native-messaging host
(`src/native-host/host.py`): a shallow embedding of the WebSocket
relay server (connection classification, routing, correlation,
aggregation) and of the framed native-messaging channel, together with
theorems settling the specification claims.

Conventions of the embedding:
* JSON values are modelled by `WebRig.JValue`; numbers are modelled as
  integers (floating-point payloads are outside the embedding).
* Python dicts are modelled as insertion-ordered association lists
  (`dictInsert` keeps the original position of an existing key, as
  CPython dicts do).
* A WebSocket connection handle is an opaque identifier `Conn := Nat`;
  Python `is` comparison on handles is equality of identifiers.
* `await ws.send(...)` is modelled as an emitted `Output.send`; the
  sends that the source wraps in `try/except` and branches on are
  governed by a `sendOk : Conn → Bool` oracle.
* The aggregation futures of `list_tab_groups` are modelled by an
  oracle `tabReply : String → Option (List (List (String × JValue)))`
  giving, per browser email, the groups the browser delivered before
  the slot timeout (`none` = timeout).  Group items are JSON objects,
  as in the message vocabulary.
-/

set_option autoImplicit false

namespace WebRig

/-- JSON values (Python `json` module values), with numbers restricted to
integers; object fields are kept in insertion order. -/
inductive JValue where
  | null
  | bool (b : Bool)
  | num (n : Int)
  | str (s : String)
  | arr (xs : List JValue)
  | obj (fields : List (String × JValue))

/-- Opaque identifier of one WebSocket connection. -/
abbrev Conn := Nat

/-- `BrowserConnection` dataclass of `host.py`. -/
structure BrowserConnection where
  ws : Conn
  email : String
  tools : List JValue
  tool_schemas : List JValue

/-- Effects the server performs on connections while handling one event. -/
inductive Output where
  | send (dest : Conn) (msg : JValue)
  | close (dest : Conn)

/-- Python `d.get(k)` on a string-keyed dict (association list). -/
def dictGet {α : Type} (l : List (String × α)) (k : String) : Option α :=
  (l.find? (fun p => p.1 == k)).map (fun p => p.2)

/-- Python `d[k] = v`: replace in place if the key exists, else append. -/
def dictInsert {α : Type} (l : List (String × α)) (k : String) (v : α) :
    List (String × α) :=
  if l.any (fun p => p.1 == k) then
    l.map (fun p => if p.1 == k then (k, v) else p)
  else
    l ++ [(k, v)]

/-- Python `d.pop(k, None)` (the removal part). -/
def dictPop {α : Type} (l : List (String × α)) (k : String) :
    List (String × α) :=
  l.filter (fun p => p.1 != k)

/-- Keys of a dict, in order. -/
def dictKeys {α : Type} (l : List (String × α)) : List String :=
  l.map (fun p => p.1)

/-- Python `set.add` on a set of connections (modelled as a dedup list). -/
def connAdd (l : List Conn) (c : Conn) : List Conn :=
  if c ∈ l then l else c :: l

/-- Python `set.discard` on a set of connections. -/
def connDiscard (l : List Conn) (c : Conn) : List Conn :=
  l.filter (fun x => x != c)

/-- Field lookup `msg.get(k)` on a JSON message. -/
def jGet : JValue → String → Option JValue
  | .obj fs, k => dictGet fs k
  | _, _ => none

/-- Field lookup returning a string (the protocol fields the router reads
as strings are strings in every well-formed message). -/
def jGetStr (m : JValue) (k : String) : Option String :=
  match jGet m k with
  | some (.str s) => some s
  | _ => none

/-- Python `msg.get(k, d)` for string-valued fields. -/
def jGetStrD (m : JValue) (k : String) (d : String) : String :=
  (jGetStr m k).getD d

/-- Python `msg.get(k, [])` for array-valued fields. -/
def jGetArrD (m : JValue) (k : String) : List JValue :=
  match jGet m k with
  | some (.arr xs) => xs
  | _ => []

/-- `msg.get("type")`, as compared against the string type tags. -/
def jType (m : JValue) : Option String :=
  jGetStr m "type"

/-- The dict comprehension `{k: v for k, v in msg.items() if k != "browser"}`. -/
def jStripBrowser : JValue → JValue
  | .obj fs => .obj (fs.filter (fun p => p.1 != "browser"))
  | v => v

/-- Mutable state of `WebRigServer` (`__init__` of `host.py`). -/
structure ServerState where
  browsers : List (String × BrowserConnection)
  agents : List Conn
  unclassified : List Conn
  pending_requests : List (String × Conn)
  pending_list_tools : List (String × Conn)
  pending_tab_groups : List String

/-- The state a fresh `WebRigServer` starts in. -/
def initState : ServerState :=
  { browsers := [], agents := [], unclassified := []
    pending_requests := [], pending_list_tools := [], pending_tab_groups := [] }

/-- Truthiness of `browser_hint` in `_resolve_browser` (`if browser_hint:`). -/
def truthyHint : Option String → Bool
  | none => false
  | some h => h != ""

/-- `WebRigServer._resolve_browser`. -/
def resolveBrowser (browsers : List (String × BrowserConnection))
    (hint : Option String) : Option BrowserConnection :=
  if browsers.isEmpty then none
  else if truthyHint hint then dictGet browsers (hint.getD "")
  else if browsers.length == 1 then (browsers.head?).map (fun p => p.2)
  else none

/-- `WebRigServer._find_browser_email`. -/
def findBrowserEmail (browsers : List (String × BrowserConnection))
    (ws : Conn) : Option String :=
  (browsers.find? (fun p => p.2.ws == ws)).map (fun p => p.1)

/-- `WebRigServer._no_browser_error`. -/
def noBrowserError (browsers : List (String × BrowserConnection)) : JValue :=
  if browsers.isEmpty then
    .obj [("type", .str "error"), ("message", .str "No browser connected")]
  else
    .obj [("type", .str "error"),
      ("message", .str ("Multiple browsers connected ("
        ++ String.intercalate ", " (dictKeys browsers)
        ++ "). Specify \x27browser\x27 field."))]

/-- The synthetic `tool_result` dict the server fabricates on the error
paths (resolution failure, forward failure, browser disconnect). -/
def toolResultError (tid content : String) : JValue :=
  .obj [("type", .str "tool_result"), ("tool_use_id", .str tid),
    ("content", .str content), ("is_error", .bool true)]

/-- Reply built for `list_browsers`. -/
def browsersListReply (browsers : List (String × BrowserConnection)) : JValue :=
  .obj [("type", .str "browsers_list"),
    ("browsers", .arr (browsers.map (fun p =>
      .obj [("email", .str p.1),
        ("tools_count", .num (Int.ofNat p.2.tools.length))])))]

/-- Reply built for a successful `list_tools` (note appended exactly when
more than one browser is connected). -/
def toolListReply (browsers : List (String × BrowserConnection))
    (bc : BrowserConnection) : JValue :=
  let base := [("type", JValue.str "tool_list"), ("tools", JValue.arr bc.tools),
    ("tool_schemas", JValue.arr bc.tool_schemas), ("browser", JValue.str bc.email)]
  if browsers.length > 1 then
    .obj (base ++ [("note", .str
      "Multiple browsers connected. Use --browser to target a specific one.")])
  else
    .obj base

/-- Per-browser outcome of one aggregation slot: the slot of a browser
whose fan-out send failed is resolved with `[]` immediately; otherwise it
holds the groups the browser replied with, or `none` on timeout. -/
def slotOutcome (sendOk : Conn → Bool)
    (tabReply : String → Option (List (List (String × JValue))))
    (email : String) (bc : BrowserConnection) :
    Option (List (List (String × JValue))) :=
  if sendOk bc.ws then tabReply email else some []

/-- The tagging loop `for g in groups: g["browser"] = email`. -/
def tagGroups (email : String) (gs : List (List (String × JValue))) :
    List JValue :=
  gs.map (fun g => .obj (dictInsert g "browser" (.str email)))

/-- The fan-in loop of `list_tab_groups`: awaiting every slot in order,
a timed-out slot contributing nothing, a delivered list contributing its
items tagged with the owning email. -/
def fanIn (futures : List (String × Option (List (List (String × JValue))))) :
    List JValue :=
  futures.foldl (fun acc p =>
    match p.2 with
    | some gs => acc ++ tagGroups p.1 gs
    | none => acc) []

/-- The fan-out request sent to every browser. -/
def listTabGroupsReq : JValue := .obj [("type", .str "list_tab_groups")]

/-- The merged aggregation reply sent to the requesting agent. -/
def tabGroupsListReply (groups : List JValue) : JValue :=
  .obj [("type", .str "tab_groups_list"), ("groups", .arr groups)]

/-- `WebRigServer.handle_agent_message`. -/
def handle_agent_message (sendOk : Conn → Bool) (sendErr : Conn → String)
    (tabReply : String → Option (List (List (String × JValue))))
    (s : ServerState) (ws : Conn) (msg : JValue) : ServerState × List Output :=
  match jType msg with
  | some "list_browsers" =>
    (s, [.send ws (browsersListReply s.browsers)])
  | some "list_tools" =>
    match resolveBrowser s.browsers (jGetStr msg "browser") with
    | none => (s, [.send ws (noBrowserError s.browsers)])
    | some bc => (s, [.send ws (toolListReply s.browsers bc)])
  | some "tool_call" =>
    match resolveBrowser s.browsers (jGetStr msg "browser") with
    | none =>
      let tid := jGetStrD msg "tool_use_id" ""
      let content := jGetStrD (noBrowserError s.browsers) "message" "No browser"
      (s, [.send ws (toolResultError tid content)])
    | some bc =>
      let tid := jGetStrD msg "tool_use_id" ""
      let s1 := { s with pending_requests := dictInsert s.pending_requests tid ws }
      let forward := jStripBrowser msg
      if sendOk bc.ws then
        (s1, [.send bc.ws forward])
      else
        ({ s1 with pending_requests := dictPop s1.pending_requests tid },
         [.send bc.ws forward,
          .send ws (toolResultError tid
            ("Failed to send to browser: " ++ sendErr bc.ws))])
  | some "list_tab_groups" =>
    -- fan-out loop: create one slot per connected browser and send the request
    let fanned := s.browsers.map (fun p =>
      (p.1, p.2.ws, slotOutcome sendOk tabReply p.1 p.2))
    let pendIns := s.browsers.foldl (fun acc p =>
        if p.1 ∈ acc then acc else acc ++ [p.1]) s.pending_tab_groups
    let afterInsert := { s with pending_tab_groups := pendIns }
    -- fan-in loop: await each slot, then pop it in the `finally` clause
    let allGroups := fanIn (fanned.map (fun q => (q.1, q.2.2)))
    let pendPop := s.browsers.foldl (fun acc p => acc.filter (fun e => e != p.1))
        afterInsert.pending_tab_groups
    let afterPop := { afterInsert with pending_tab_groups := pendPop }
    (afterPop,
      fanned.map (fun q => Output.send q.2.1 listTabGroupsReq)
        ++ [.send ws (tabGroupsListReply allGroups)])
  | _ => (s, [])

/-- `WebRigServer.handle_browser_message`. -/
def handle_browser_message (s : ServerState) (ws : Conn) (msg : JValue) :
    ServerState × List Output :=
  match jType msg with
  | some "tool_result" =>
    let tid := jGetStrD msg "tool_use_id" ""
    match dictGet s.pending_requests tid with
    | some agent =>
      ({ s with pending_requests := dictPop s.pending_requests tid },
       [.send agent msg])
    | none =>
      ({ s with pending_requests := dictPop s.pending_requests tid }, [])
  | some "tool_list" =>
    match findBrowserEmail s.browsers ws with
    | some email =>
      match dictGet s.pending_list_tools email with
      | some agent =>
        ({ s with pending_list_tools := dictPop s.pending_list_tools email },
         [.send agent msg])
      | none =>
        ({ s with pending_list_tools := dictPop s.pending_list_tools email }, [])
    | none => (s, [])
  | some "tab_groups_list" =>
    -- resolves the sender's pending future, if any; the table is unchanged
    (s, [])
  | some "pong" => (s, [])
  | _ => (s, [])

/-- `WebRigServer.route_message`. -/
def route_message (sendOk : Conn → Bool) (sendErr : Conn → String)
    (tabReply : String → Option (List (List (String × JValue))))
    (s : ServerState) (ws : Conn) (msg : JValue) : ServerState × List Output :=
  if jType msg == some "extension_connected" then
    let s1 := { s with unclassified := connDiscard s.unclassified ws }
    let email := jGetStrD msg "email" "unknown"
    let tools := jGetArrD msg "tools"
    let schemas := jGetArrD msg "tool_schemas"
    let closeOuts : List Output :=
      match dictGet s1.browsers email with
      | some old => if old.ws != ws then [.close old.ws] else []
      | none => []
    let bc : BrowserConnection :=
      { ws := ws, email := email, tools := tools, tool_schemas := schemas }
    ({ s1 with browsers := dictInsert s1.browsers email bc }, closeOuts)
  else
    let s1 :=
      if ws ∈ s.unclassified then
        { s with unclassified := connDiscard s.unclassified ws
                 agents := connAdd s.agents ws }
      else s
    if ws ∈ s1.agents then
      handle_agent_message sendOk sendErr tabReply s1 ws msg
    else
      handle_browser_message s1 ws msg

/-- `WebRigServer.cleanup`: per-email inner loop body (delete the registry
entry, then answer and drop every pending request). -/
def cleanupEmailStep (acc : ServerState × List Output) (email : String) :
    ServerState × List Output :=
  let s := acc.1
  let s1 := { s with browsers := dictPop s.browsers email }
  let sends := s1.pending_requests.map (fun p =>
    Output.send p.2 (toolResultError p.1
      ("Browser \x27" ++ email ++ "\x27 disconnected")))
  ({ s1 with pending_requests := [] }, acc.2 ++ sends)

/-- `WebRigServer.cleanup`. -/
def cleanup (s : ServerState) (ws : Conn) : ServerState × List Output :=
  let uncl := connDiscard s.unclassified ws
  let ags := connDiscard s.agents ws
  let s1 := { s with unclassified := uncl, agents := ags }
  let emails := (s1.browsers.filter (fun p => p.2.ws == ws)).map (fun p => p.1)
  let res := emails.foldl cleanupEmailStep (s1, [])
  let s2 := res.1
  if ws ∈ s2.agents || emails.isEmpty then
    ({ s2 with pending_requests :=
        s2.pending_requests.filter (fun p => p.2 != ws) }, res.2)
  else
    (s2, res.2)

/-- External events driving the server: a connection is accepted, a
parsed JSON message arrives on it, or it disconnects.  A message event
carries the oracles for the fallible sends and the aggregation futures. -/
inductive Event where
  | connect (c : Conn)
  | message (sendOk : Conn → Bool) (sendErr : Conn → String)
      (tabReply : String → Option (List (List (String × JValue))))
      (c : Conn) (msg : JValue)
  | disconnect (c : Conn)

/-- One event step of the server (`handler` plus `route_message`/`cleanup`). -/
def stepEvent (s : ServerState) : Event → ServerState × List Output
  | .connect c => ({ s with unclassified := connAdd s.unclassified c }, [])
  | .message sendOk sendErr tabReply c msg =>
      route_message sendOk sendErr tabReply s c msg
  | .disconnect c => cleanup s c

/-- Running the server over a sequence of events. -/
def runEvents (s : ServerState) (evs : List Event) : ServerState :=
  evs.foldl (fun s e => (stepEvent s e).1) s

/-! ## The framed native-messaging channel (`native_read` / `native_write`)

`native_write` JSON-encodes a message (`json.dumps`, default separators,
`ensure_ascii`), UTF-8-encodes it, and prepends a 4-byte little-endian
length.  `native_read` reads the prefix, takes that many bytes, decodes
UTF-8 and parses the JSON (`json.loads`).  Streams are byte lists. -/

/-- The double-quote character. -/
def quoteChar : Char := Char.ofNat 34

/-- The backslash character. -/
def backslashChar : Char := Char.ofNat 92

/-- Opening curly bracket. -/
def lbrace : Char := Char.ofNat 123

/-- Closing curly bracket. -/
def rbrace : Char := Char.ofNat 125

/-- Decimal digit character for `d < 10`. -/
def digitChar (d : Nat) : Char := Char.ofNat (48 + d)

/-- Decimal digits of a natural number, most significant first. -/
def natToDigits (n : Nat) : List Char :=
  if _h : n < 10 then [digitChar n]
  else natToDigits (n / 10) ++ [digitChar (n % 10)]
termination_by n
decreasing_by exact Nat.div_lt_self (by omega) (by omega)

/-- Decimal representation of an integer (`repr` of a Python int). -/
def intToChars (n : Int) : List Char :=
  if n < 0 then '-' :: natToDigits (-n).toNat else natToDigits n.toNat

/-- Lowercase hexadecimal digit character for `d < 16`. -/
def hexDigitChar (d : Nat) : Char :=
  if d < 10 then Char.ofNat (48 + d) else Char.ofNat (87 + d)

/-- Four lowercase hex digits of `n % 0x10000` (the `\uXXXX` payload). -/
def hex4 (n : Nat) : List Char :=
  [hexDigitChar (n / 4096 % 16), hexDigitChar (n / 256 % 16),
   hexDigitChar (n / 16 % 16), hexDigitChar (n % 16)]

/-- Escaping of one character by `json.dumps` with `ensure_ascii=True`:
backslash, quote and the five short escapes, `\uXXXX` for other control
or non-ASCII characters (a surrogate pair above U+FFFF), the character
itself for printable ASCII. -/
def escapeChar (c : Char) : List Char :=
  if c = quoteChar then [backslashChar, quoteChar]
  else if c = backslashChar then [backslashChar, backslashChar]
  else if c.toNat == 8 then [backslashChar, 'b']
  else if c.toNat == 12 then [backslashChar, 'f']
  else if c.toNat == 10 then [backslashChar, 'n']
  else if c.toNat == 13 then [backslashChar, 'r']
  else if c.toNat == 9 then [backslashChar, 't']
  else if c.toNat < 32 || 126 < c.toNat then
    if c.toNat < 65536 then backslashChar :: 'u' :: hex4 c.toNat
    else
      let m := c.toNat - 65536
      (backslashChar :: 'u' :: hex4 (55296 + m / 1024))
        ++ (backslashChar :: 'u' :: hex4 (56320 + m % 1024))
  else [c]

/-- Escaped body of a JSON string literal. -/
def encodeStringChars (s : List Char) : List Char :=
  (s.map escapeChar).flatten

/-- A JSON string literal: quote, escaped body, quote. -/
def encodeString (s : String) : List Char :=
  quoteChar :: encodeStringChars s.data ++ [quoteChar]

mutual

/-- `json.dumps` with the default separators. -/
def dumpVal : JValue → List Char
  | .null => 'n' :: ['u', 'l', 'l']
  | .bool b => if b then 't' :: ['r', 'u', 'e'] else 'f' :: ['a', 'l', 's', 'e']
  | .num n => intToChars n
  | .str s => encodeString s
  | .arr xs => '[' :: dumpElems xs ++ [']']
  | .obj fs => lbrace :: dumpFields fs ++ [rbrace]

/-- Array elements joined by the default item separator. -/
def dumpElems : List JValue → List Char
  | [] => []
  | [x] => dumpVal x
  | x :: y :: xs => dumpVal x ++ (',' :: ' ' :: dumpElems (y :: xs))

/-- Object entries joined by the default separators. -/
def dumpFields : List (String × JValue) → List Char
  | [] => []
  | [(k, v)] => encodeString k ++ (':' :: ' ' :: dumpVal v)
  | (k, v) :: f :: fs =>
    encodeString k ++ (':' :: ' ' :: dumpVal v)
      ++ (',' :: ' ' :: dumpFields (f :: fs))

end

mutual

/-- Fuel bound sufficient to parse back a dumped value. -/
def jsize : JValue → Nat
  | .arr xs => jsizeElems xs + 1
  | .obj fs => jsizeFields fs + 1
  | _ => 1

/-- Fuel bound for a dumped element list. -/
def jsizeElems : List JValue → Nat
  | [] => 0
  | x :: xs => jsize x + jsizeElems xs + 1

/-- Fuel bound for a dumped field list. -/
def jsizeFields : List (String × JValue) → Nat
  | [] => 0
  | p :: fs => jsize p.2 + jsizeFields fs + 1

end

/-- JSON whitespace. -/
def isWsB (c : Char) : Bool :=
  c.toNat == 32 || c.toNat == 9 || c.toNat == 10 || c.toNat == 13

/-- Skip leading JSON whitespace. -/
def skipWs : List Char → List Char
  | [] => []
  | c :: cs => if isWsB c then skipWs cs else c :: cs

/-- Decimal digit test. -/
def isDigitB (c : Char) : Bool :=
  48 ≤ c.toNat && c.toNat ≤ 57

/-- True when the input does not continue with a decimal digit. -/
def headNotDigit : List Char → Bool
  | [] => true
  | c :: _ => !(isDigitB c)

/-- Accumulate a run of decimal digits. -/
def parseDigits (acc : Nat) : List Char → Nat × List Char
  | [] => (acc, [])
  | c :: cs =>
    if isDigitB c then parseDigits (10 * acc + (c.toNat - 48)) cs
    else (acc, c :: cs)

/-- Parse a JSON integer (an optional minus sign and at least one digit). -/
def parseNum : List Char → Option (Int × List Char)
  | [] => none
  | c :: cs =>
    if c = '-' then
      match cs with
      | d :: _ =>
        if isDigitB d then
          let r := parseDigits 0 cs
          some (-(Int.ofNat r.1), r.2)
        else none
      | [] => none
    else if isDigitB c then
      let r := parseDigits 0 (c :: cs)
      some (Int.ofNat r.1, r.2)
    else none

/-- Value of one hexadecimal digit character. -/
def hexVal (c : Char) : Option Nat :=
  if 48 ≤ c.toNat && c.toNat ≤ 57 then some (c.toNat - 48)
  else if 97 ≤ c.toNat && c.toNat ≤ 102 then some (c.toNat - 87)
  else if 65 ≤ c.toNat && c.toNat ≤ 70 then some (c.toNat - 55)
  else none

/-- Parse exactly four hexadecimal digits. -/
def parse4Hex : List Char → Option (Nat × List Char)
  | a :: b :: c :: d :: rest =>
    match hexVal a, hexVal b, hexVal c, hexVal d with
    | some x, some y, some z, some w =>
      some (4096 * x + 256 * y + 16 * z + w, rest)
    | _, _, _, _ => none
  | _ => none

/-- Parse the body of a JSON string literal up to the closing quote,
decoding escapes (pairing `\uXXXX` surrogates as CPython does). -/
def parseStringBody : Nat → List Char → Option (List Char × List Char)
  | 0, _ => none
  | fuel + 1, input =>
    match input with
    | [] => none
    | c :: cs =>
      if c = quoteChar then some ([], cs)
      else if c = backslashChar then
        match cs with
        | [] => none
        | e :: cs2 =>
          if e = quoteChar then
            (parseStringBody fuel cs2).map (fun pr => (quoteChar :: pr.1, pr.2))
          else if e = backslashChar then
            (parseStringBody fuel cs2).map (fun pr => (backslashChar :: pr.1, pr.2))
          else if e = '/' then
            (parseStringBody fuel cs2).map (fun pr => ('/' :: pr.1, pr.2))
          else if e = 'b' then
            (parseStringBody fuel cs2).map (fun pr => (Char.ofNat 8 :: pr.1, pr.2))
          else if e = 'f' then
            (parseStringBody fuel cs2).map (fun pr => (Char.ofNat 12 :: pr.1, pr.2))
          else if e = 'n' then
            (parseStringBody fuel cs2).map (fun pr => (Char.ofNat 10 :: pr.1, pr.2))
          else if e = 'r' then
            (parseStringBody fuel cs2).map (fun pr => (Char.ofNat 13 :: pr.1, pr.2))
          else if e = 't' then
            (parseStringBody fuel cs2).map (fun pr => (Char.ofNat 9 :: pr.1, pr.2))
          else if e = 'u' then
            match parse4Hex cs2 with
            | none => none
            | some (n, rest) =>
              if 55296 ≤ n && n ≤ 56319 then
                match rest with
                | b1 :: b2 :: rest2 =>
                  if b1 = backslashChar && b2 = 'u' then
                    match parse4Hex rest2 with
                    | some (n2, rest3) =>
                      if 56320 ≤ n2 && n2 ≤ 57343 then
                        (parseStringBody fuel rest3).map (fun pr =>
                          (Char.ofNat (65536 + (n - 55296) * 1024 + (n2 - 56320))
                            :: pr.1, pr.2))
                      else
                        (parseStringBody fuel rest).map (fun pr =>
                          (Char.ofNat n :: pr.1, pr.2))
                    | none =>
                      (parseStringBody fuel rest).map (fun pr =>
                        (Char.ofNat n :: pr.1, pr.2))
                  else
                    (parseStringBody fuel rest).map (fun pr =>
                      (Char.ofNat n :: pr.1, pr.2))
                | _ =>
                  (parseStringBody fuel rest).map (fun pr =>
                    (Char.ofNat n :: pr.1, pr.2))
              else
                (parseStringBody fuel rest).map (fun pr =>
                  (Char.ofNat n :: pr.1, pr.2))
          else none
      else
        (parseStringBody fuel cs).map (fun pr => (c :: pr.1, pr.2))

mutual

/-- Recursive-descent JSON value parser (the scanner behind `json.loads`),
driven by a fuel bound on nesting. -/
def parseVal : Nat → List Char → Option (JValue × List Char)
  | 0, _ => none
  | fuel + 1, input =>
    match skipWs input with
    | [] => none
    | c :: cs =>
      if c = 'n' then
        match cs with
        | 'u' :: 'l' :: 'l' :: rest => some (.null, rest)
        | _ => none
      else if c = 't' then
        match cs with
        | 'r' :: 'u' :: 'e' :: rest => some (.bool true, rest)
        | _ => none
      else if c = 'f' then
        match cs with
        | 'a' :: 'l' :: 's' :: 'e' :: rest => some (.bool false, rest)
        | _ => none
      else if c = quoteChar then
        match parseStringBody (cs.length + 1) cs with
        | some (s, rest) => some (.str (String.mk s), rest)
        | none => none
      else if c = '[' then
        match skipWs cs with
        | [] => none
        | d :: ds =>
          if d = ']' then some (.arr [], ds)
          else
            match parseElems fuel (d :: ds) with
            | some (vs, rest) => some (.arr vs, rest)
            | none => none
      else if c = lbrace then
        match skipWs cs with
        | [] => none
        | d :: ds =>
          if d = rbrace then some (.obj [], ds)
          else
            match parseFields fuel (d :: ds) with
            | some (fs, rest) => some (.obj fs, rest)
            | none => none
      else
        match parseNum (c :: cs) with
        | some (n, rest) => some (.num n, rest)
        | none => none

/-- Parse one or more comma-separated array elements and the closing
bracket. -/
def parseElems : Nat → List Char → Option (List JValue × List Char)
  | 0, _ => none
  | fuel + 1, input =>
    match parseVal (fuel + 1) input with
    | none => none
    | some (v, rest) =>
      match skipWs rest with
      | [] => none
      | d :: ds =>
        if d = ',' then
          match parseElems fuel ds with
          | some (vs, rest2) => some (v :: vs, rest2)
          | none => none
        else if d = ']' then some ([v], ds)
        else none

/-- Parse one or more comma-separated object entries and the closing
bracket. -/
def parseFields : Nat → List Char → Option (List (String × JValue) × List Char)
  | 0, _ => none
  | fuel + 1, input =>
    match skipWs input with
    | [] => none
    | c :: cs =>
      if c = quoteChar then
        match parseStringBody (cs.length + 1) cs with
        | none => none
        | some (key, rest) =>
          match skipWs rest with
          | [] => none
          | d :: ds =>
            if d = ':' then
              match parseVal (fuel + 1) ds with
              | none => none
              | some (v, rest2) =>
                match skipWs rest2 with
                | [] => none
                | e :: es =>
                  if e = ',' then
                    match parseFields fuel es with
                    | some (fs, rest3) => some ((String.mk key, v) :: fs, rest3)
                    | none => none
                  else if e = rbrace then some ([(String.mk key, v)], es)
                  else none
            else none
      else none

end

/-- `json.loads`: parse one value and accept only trailing whitespace. -/
def loads (s : List Char) : Option JValue :=
  match parseVal (s.length + 1) s with
  | some (v, rest) => if (skipWs rest).isEmpty then some v else none
  | none => none

/-- UTF-8 encoding of one character. -/
def utf8EncodeChar (c : Char) : List Nat :=
  let n := c.toNat
  if n < 128 then [n]
  else if n < 2048 then [192 + n / 64, 128 + n % 64]
  else if n < 65536 then [224 + n / 4096, 128 + n / 64 % 64, 128 + n % 64]
  else [240 + n / 262144, 128 + n / 4096 % 64, 128 + n / 64 % 64, 128 + n % 64]

/-- `str.encode("utf-8")`. -/
def utf8Encode (s : List Char) : List Nat :=
  (s.map utf8EncodeChar).flatten

/-- Continuation byte test. -/
def isCont (b : Nat) : Bool :=
  128 ≤ b && b ≤ 191

mutual

/-- `bytes.decode("utf-8")` (failure on malformed sequences). -/
def utf8Decode : List Nat → Option (List Char)
  | [] => some []
  | b :: bs =>
    if b < 128 then
      (utf8Decode bs).map (fun s => Char.ofNat b :: s)
    else if 194 ≤ b && b ≤ 223 then utf8DecTail2 b bs
    else if 224 ≤ b && b ≤ 239 then utf8DecTail3 b bs
    else if 240 ≤ b && b ≤ 244 then utf8DecTail4 b bs
    else none
termination_by l => l.length
decreasing_by all_goals simp <;> omega

/-- Continuation bytes of a 2-byte UTF-8 sequence. -/
def utf8DecTail2 (b : Nat) : List Nat → Option (List Char)
  | b2 :: bs2 =>
    if isCont b2 then
      (utf8Decode bs2).map (fun s => Char.ofNat ((b - 192) * 64 + (b2 - 128)) :: s)
    else none
  | _ => none
termination_by l => l.length
decreasing_by all_goals simp <;> omega

/-- Continuation bytes of a 3-byte UTF-8 sequence. -/
def utf8DecTail3 (b : Nat) : List Nat → Option (List Char)
  | b2 :: b3 :: bs3 =>
    if isCont b2 && isCont b3 then
      (utf8Decode bs3).map (fun s =>
        Char.ofNat ((b - 224) * 4096 + (b2 - 128) * 64 + (b3 - 128)) :: s)
    else none
  | _ => none
termination_by l => l.length
decreasing_by all_goals simp <;> omega

/-- Continuation bytes of a 4-byte UTF-8 sequence. -/
def utf8DecTail4 (b : Nat) : List Nat → Option (List Char)
  | b2 :: b3 :: b4 :: bs4 =>
    if isCont b2 && isCont b3 && isCont b4 then
      (utf8Decode bs4).map (fun s =>
        Char.ofNat ((b - 240) * 262144 + (b2 - 128) * 4096
          + (b3 - 128) * 64 + (b4 - 128)) :: s)
    else none
  | _ => none
termination_by l => l.length
decreasing_by all_goals simp <;> omega

end

/-- `struct.pack("<I", n)`: the 4-byte little-endian length prefix. -/
def pack4LE (n : Nat) : List Nat :=
  [n % 256, n / 256 % 256, n / 65536 % 256, n / 16777216 % 256]

/-- `struct.unpack("<I", ...)`. -/
def unpack4LE (b0 b1 b2 b3 : Nat) : Nat :=
  b0 + 256 * b1 + 65536 * b2 + 16777216 * b3

/-- `native_write`: JSON-encode, UTF-8-encode, length-prefix. -/
def native_write (msg : JValue) : List Nat :=
  let data := utf8Encode (dumpVal msg)
  pack4LE data.length ++ data

/-- `native_read`: returns the decoded message and the remaining stream;
`none` stands for EOF (short prefix read or empty payload) or for the
decode errors that abort the native-messaging loop. -/
def native_read (stream : List Nat) : Option JValue × List Nat :=
  match stream with
  | b0 :: b1 :: b2 :: b3 :: rest =>
    let msgLen := unpack4LE b0 b1 b2 b3
    let raw := rest.take msgLen
    let remaining := rest.drop msgLen
    if raw.isEmpty then (none, remaining)
    else
      match utf8Decode raw with
      | some chars => (loads chars, remaining)
      | none => (none, remaining)
  | _ => (none, [])

/-! ## The native-messaging liveness loop (`native_messaging_loop`) -/

/-- `DEFAULT_PORT` of `host.py`. -/
def DEFAULT_PORT : Nat := 7680

/-- The port `WebRigServer` listens on: the one it was constructed with
(`args.port`). -/
def serverListenPort (configuredPort : Nat) : Nat := configuredPort

/-- Reply computed by one iteration of `native_messaging_loop` for an
inbound control message (`none`: logged and dropped).  The loop has no
access to the configured port; its `status` reply hardcodes
`DEFAULT_PORT`. -/
def nmReply (msg : JValue) : Option JValue :=
  match jType msg with
  | some "ping" => some (.obj [("type", .str "pong"), ("status", .str "running")])
  | some "get_status" => some (.obj [("type", .str "status"),
      ("ws_port", .num (Int.ofNat DEFAULT_PORT)), ("status", .str "running")])
  | _ => none

/-! ## Association-list (Python dict) lemmas -/

/-- Keys of a dict are pairwise distinct (the invariant a Python dict
enjoys by construction). -/
def NodupKeys {α : Type} (l : List (String × α)) : Prop :=
  (dictKeys l).Nodup

theorem dictGet_eq_none_iff {α : Type} (l : List (String × α)) (k : String) :
    dictGet l k = none ↔ ∀ p ∈ l, p.1 ≠ k := by
  simp [dictGet, List.find?_eq_none, Option.map_eq_none']

theorem any_key_eq_false_iff {α : Type} (l : List (String × α)) (k : String) :
    l.any (fun p => p.1 == k) = false ↔ dictGet l k = none := by
  rw [dictGet_eq_none_iff]
  simp [List.any_eq_true]

theorem dictGet_insert_self {α : Type} (l : List (String × α)) (k : String)
    (v : α) : dictGet (dictInsert l k v) k = some v := by
  by_cases h : l.any (fun p => p.1 == k) = true
  · rw [dictInsert, if_pos h, dictGet, List.find?_map]
    have hp : ((fun p : String × α => p.1 == k)
        ∘ (fun p : String × α => if p.1 == k then (k, v) else p))
        = fun p : String × α => p.1 == k := by
      funext p
      simp only [Function.comp]
      by_cases hpk : p.1 = k
      · simp [hpk]
      · simp [hpk]
    rw [hp]
    cases hfind : l.find? (fun p : String × α => p.1 == k) with
    | none =>
      rcases List.any_eq_true.mp h with ⟨q, hq, hqk⟩
      exact absurd hqk (List.find?_eq_none.mp hfind q hq)
    | some r =>
      have hrk : (r.1 == k) = true := by simpa using List.find?_some hfind
      have hr1 : r.1 = k := eq_of_beq hrk
      simp [hr1]
  · rw [dictInsert, if_neg h, dictGet, List.find?_append]
    have hnone : l.find? (fun p : String × α => p.1 == k) = none := by
      rw [List.find?_eq_none]
      intro p hp
      exact List.any_eq_false.mp (by simpa only [Bool.not_eq_true] using h) p hp
    simp [hnone]

theorem dictPop_of_get_none {α : Type} (l : List (String × α)) (k : String)
    (h : dictGet l k = none) : dictPop l k = l := by
  rw [dictPop, List.filter_eq_self]
  intro p hp
  have := (dictGet_eq_none_iff l k).mp h p hp
  simpa [bne] using this

theorem dictPop_insert_fresh {α : Type} (l : List (String × α)) (k : String)
    (v : α) (h : dictGet l k = none) : dictPop (dictInsert l k v) k = l := by
  have hany : l.any (fun p => p.1 == k) = false :=
    (any_key_eq_false_iff l k).mpr h
  have h1 : dictPop l k = l := dictPop_of_get_none l k h
  rw [dictInsert, if_neg (by simp [hany])]
  show List.filter (fun p : String × α => p.1 != k) (l ++ [(k, v)]) = l
  rw [List.filter_append]
  have h2 : List.filter (fun p : String × α => p.1 != k) [(k, v)] = [] := by
    simp
  rw [dictPop] at h1
  rw [h1, h2, List.append_nil]

theorem dictGet_pop_self {α : Type} (l : List (String × α)) (k : String) :
    dictGet (dictPop l k) k = none := by
  rw [dictGet_eq_none_iff]
  intro p hp
  have := List.of_mem_filter hp
  simpa [bne] using this

theorem dictKeys_insert_of_mem {α : Type} (l : List (String × α)) (k : String)
    (v : α) (h : l.any (fun p => p.1 == k) = true) :
    dictKeys (dictInsert l k v) = dictKeys l := by
  rw [dictInsert, if_pos h, dictKeys, dictKeys, List.map_map]
  refine List.map_congr_left ?_
  intro p _
  simp only [Function.comp]
  by_cases hpk : p.1 = k
  · simp [hpk]
  · simp [hpk]

theorem nodupKeys_insert {α : Type} (l : List (String × α)) (k : String)
    (v : α) (h : NodupKeys l) : NodupKeys (dictInsert l k v) := by
  by_cases hany : l.any (fun p => p.1 == k) = true
  · rw [NodupKeys, dictKeys_insert_of_mem l k v hany]
    exact h
  · have hanyf : l.any (fun p => p.1 == k) = false := by
      simpa only [Bool.not_eq_true] using hany
    have hget : dictGet l k = none := (any_key_eq_false_iff l k).mp hanyf
    rw [NodupKeys, dictInsert, if_neg (by simp [hanyf]), dictKeys,
      List.map_append, List.nodup_append]
    refine ⟨h, List.nodup_singleton k, ?_⟩
    intro x hx hxk
    have hxk2 : x = k := by simpa using hxk
    rcases List.mem_map.mp hx with ⟨p, hp, hpx⟩
    exact (dictGet_eq_none_iff l k).mp hget p hp (hpx.trans hxk2)

theorem nodupKeys_filter {α : Type} (l : List (String × α))
    (q : String × α → Bool) (h : NodupKeys l) : NodupKeys (l.filter q) := by
  exact List.Nodup.sublist (List.Sublist.map _ (List.filter_sublist l)) h

/-! ## Fixtures for the concrete counterexamples and witnesses -/

/-- Browser connection with no tools, used in concrete scenarios. -/
def mkBC (w : Conn) (e : String) : BrowserConnection :=
  { ws := w, email := e, tools := [], tool_schemas := [] }

/-- Oracle: every fallible send succeeds. -/
def okAll : Conn → Bool := fun _ => true

/-- Oracle: every fallible send fails. -/
def failAll : Conn → Bool := fun _ => false

/-- Oracle: exception text of a failed send. -/
def errAll : Conn → String := fun _ => "connection closed"

/-- Oracle: no browser answers an aggregation request in time. -/
def noTabs : String → Option (List (List (String × JValue))) := fun _ => none

/-- Two registered browsers (emails `e1`, `e2`, connections 1, 2) and one
agent (connection 3). -/
def sTwoBrowsers : ServerState :=
  { initState with browsers := [("e1", mkBC 1 "e1"), ("e2", mkBC 2 "e2")]
                   agents := [3] }

/-- One registered browser (`e1`, connection 1) and one agent (3). -/
def sOneBrowser : ServerState :=
  { initState with browsers := [("e1", mkBC 1 "e1")], agents := [3] }

/-! ## C1: target resolution -/

/-- C1 is false as stated: with exactly one Browser connected and a
targeting hint naming a different email, `_resolve_browser` returns no
browser at all (the hint is checked before the single-browser shortcut),
whereas the claim says the single Browser is used regardless of the
hint. -/
theorem C1_counterexample :
    ([("a@x", mkBC 1 "a@x")] : List (String × BrowserConnection)).length = 1
    ∧ resolveBrowser [("a@x", mkBC 1 "a@x")] (some "b@x") = none := by
  exact ⟨rfl, rfl⟩

/-- C1 (amended): a supplied non-empty hint always takes precedence —
resolution then succeeds exactly on an exact email match, even when only
one Browser is connected; with no (or an empty) hint, exactly one
connected Browser resolves to that Browser and zero or two-or-more fail;
and on resolution failure `tool_call` takes the synthetic-error path and
`list_tools` the structured-error path. -/
theorem C1_target_resolution :
    (∀ hint, resolveBrowser [] hint = none)
    ∧ (∀ browsers h bc, h ≠ "" →
        (resolveBrowser browsers (some h) = some bc
          ↔ dictGet browsers h = some bc))
    ∧ (∀ e bc, resolveBrowser [(e, bc)] none = some bc)
    ∧ (∀ browsers : List (String × BrowserConnection), 2 ≤ browsers.length →
        resolveBrowser browsers none = none)
    ∧ (∀ sendOk sendErr tabReply s ws msg,
        jType msg = some "tool_call" →
        resolveBrowser s.browsers (jGetStr msg "browser") = none →
        handle_agent_message sendOk sendErr tabReply s ws msg
          = (s, [.send ws (toolResultError (jGetStrD msg "tool_use_id" "")
              (jGetStrD (noBrowserError s.browsers) "message" "No browser"))]))
    ∧ (∀ sendOk sendErr tabReply s ws msg,
        jType msg = some "list_tools" →
        resolveBrowser s.browsers (jGetStr msg "browser") = none →
        handle_agent_message sendOk sendErr tabReply s ws msg
          = (s, [.send ws (noBrowserError s.browsers)])) := by
  refine ⟨?_, ?_, ?_, ?_, ?_, ?_⟩
  · intro hint
    simp [resolveBrowser]
  · intro browsers h bc hne
    have ht : truthyHint (some h) = true := by
      simp [truthyHint, hne]
    rcases browsers with _ | ⟨a, t⟩
    · simp [resolveBrowser, dictGet]
    · simp [resolveBrowser, ht]
  · intro e bc
    rfl
  · intro browsers h2
    rcases browsers with _ | ⟨a, _ | ⟨b, t⟩⟩
    · simp at h2
    · simp at h2
    · simp [resolveBrowser, truthyHint]
  · intro sendOk sendErr tabReply s ws msg ht hr
    simp only [handle_agent_message, ht, hr]
  · intro sendOk sendErr tabReply s ws msg ht hr
    simp only [handle_agent_message, ht, hr]

/-- Closed instantiation of `C1_target_resolution` on concrete states
and messages. -/
theorem C1_target_resolution_witness :
    resolveBrowser [] (some "a@x") = none
    ∧ resolveBrowser [("e1", mkBC 1 "e1"), ("e2", mkBC 2 "e2")] (some "e2")
        = some (mkBC 2 "e2")
    ∧ resolveBrowser [("e1", mkBC 1 "e1")] none = some (mkBC 1 "e1")
    ∧ resolveBrowser [("e1", mkBC 1 "e1"), ("e2", mkBC 2 "e2")] none = none
    ∧ handle_agent_message okAll errAll noTabs initState 3
        (.obj [("type", .str "tool_call"), ("tool_use_id", .str "t9")])
      = (initState, [.send 3 (toolResultError
          (jGetStrD (.obj [("type", .str "tool_call"), ("tool_use_id", .str "t9")])
            "tool_use_id" "")
          (jGetStrD (noBrowserError initState.browsers) "message" "No browser"))])
    ∧ handle_agent_message okAll errAll noTabs initState 3
        (.obj [("type", .str "list_tools")])
      = (initState, [.send 3 (noBrowserError initState.browsers)]) := by
  refine ⟨C1_target_resolution.1 (some "a@x"),
    (C1_target_resolution.2.1 _ "e2" (mkBC 2 "e2") (by decide)).mpr rfl,
    C1_target_resolution.2.2.1 "e1" (mkBC 1 "e1"),
    C1_target_resolution.2.2.2.1 _ (by decide),
    C1_target_resolution.2.2.2.2.1 okAll errAll noTabs initState 3 _ rfl rfl,
    C1_target_resolution.2.2.2.2.2 okAll errAll noTabs initState 3 _ rfl rfl⟩

/-! ## C5: the get_status reply and the listen port -/

/-- C5 names a code bug: the liveness loop replies to `get_status` with
the hardcoded `DEFAULT_PORT` 7680, while a server configured with port
8080 listens on 8080 — the reply does not carry the actual listen port,
although the startup `ready` message does use the configured port. -/
theorem C5_get_status_port :
    nmReply (.obj [("type", .str "get_status")])
      = some (.obj [("type", .str "status"),
          ("ws_port", .num (Int.ofNat DEFAULT_PORT)), ("status", .str "running")])
    ∧ DEFAULT_PORT = 7680
    ∧ serverListenPort 8080 = 8080
    ∧ (7680 : Nat) ≠ 8080 := by
  exact ⟨rfl, rfl, rfl, by decide⟩

/-! ## C6: the list_tools reply and its advisory note -/

/-- C6 is false as stated: with two Browsers connected and an explicit
target `e1` supplied (and matched), the `tool_list` reply still carries
the advisory note — the source adds the note whenever more than one
Browser is connected, ignoring whether a target was supplied. -/
theorem C6_counterexample :
    jGetStr (.obj [("type", .str "list_tools"), ("browser", .str "e1")])
        "browser" = some "e1"
    ∧ (handle_agent_message okAll errAll noTabs sTwoBrowsers 3
        (.obj [("type", .str "list_tools"), ("browser", .str "e1")])).2
      = [.send 3 (toolListReply sTwoBrowsers.browsers (mkBC 1 "e1"))]
    ∧ jGet (toolListReply sTwoBrowsers.browsers (mkBC 1 "e1")) "note"
      = some (.str
          "Multiple browsers connected. Use --browser to target a specific one.") := by
  exact ⟨rfl, rfl, rfl⟩

/-- C6 (amended): every successful `list_tools` is answered with exactly
one `tool_list` reply carrying the resolved Browser's tools, schemas and
email, and the reply carries the advisory note if and only if more than
one Browser is connected — whether or not an explicit target was
supplied. -/
theorem C6_tool_list_note (sendOk : Conn → Bool) (sendErr : Conn → String)
    (tabReply : String → Option (List (List (String × JValue))))
    (s : ServerState) (ws : Conn) (msg : JValue) (bc : BrowserConnection)
    (ht : jType msg = some "list_tools")
    (hr : resolveBrowser s.browsers (jGetStr msg "browser") = some bc) :
    handle_agent_message sendOk sendErr tabReply s ws msg
      = (s, [.send ws (toolListReply s.browsers bc)])
    ∧ (jGet (toolListReply s.browsers bc) "note" ≠ none ↔ 1 < s.browsers.length)
    ∧ jGet (toolListReply s.browsers bc) "browser" = some (.str bc.email)
    ∧ jGet (toolListReply s.browsers bc) "tools" = some (.arr bc.tools)
    ∧ jGet (toolListReply s.browsers bc) "tool_schemas"
        = some (.arr bc.tool_schemas) := by
  refine ⟨by simp only [handle_agent_message, ht, hr], ?_, ?_, ?_, ?_⟩
  · by_cases h : 1 < s.browsers.length
    · simp [toolListReply, h, jGet, dictGet]
    · simp [toolListReply, h, jGet, dictGet]
  · by_cases h : 1 < s.browsers.length
    · simp [toolListReply, h, jGet, dictGet]
    · simp [toolListReply, h, jGet, dictGet]
  · by_cases h : 1 < s.browsers.length
    · simp [toolListReply, h, jGet, dictGet]
    · simp [toolListReply, h, jGet, dictGet]
  · by_cases h : 1 < s.browsers.length
    · simp [toolListReply, h, jGet, dictGet]
    · simp [toolListReply, h, jGet, dictGet]

/-- Closed instantiation of `C6_tool_list_note`: one browser, no hint —
reply without note. -/
theorem C6_tool_list_note_witness :
    handle_agent_message okAll errAll noTabs sOneBrowser 3
        (.obj [("type", .str "list_tools")])
      = (sOneBrowser, [.send 3 (toolListReply sOneBrowser.browsers (mkBC 1 "e1"))])
    ∧ (jGet (toolListReply sOneBrowser.browsers (mkBC 1 "e1")) "note" ≠ none
        ↔ 1 < sOneBrowser.browsers.length)
    ∧ jGet (toolListReply sOneBrowser.browsers (mkBC 1 "e1")) "browser"
        = some (.str (mkBC 1 "e1").email)
    ∧ jGet (toolListReply sOneBrowser.browsers (mkBC 1 "e1")) "tools"
        = some (.arr (mkBC 1 "e1").tools)
    ∧ jGet (toolListReply sOneBrowser.browsers (mkBC 1 "e1")) "tool_schemas"
        = some (.arr (mkBC 1 "e1").tool_schemas) := by
  exact C6_tool_list_note okAll errAll noTabs sOneBrowser 3
    (.obj [("type", .str "list_tools")]) (mkBC 1 "e1") rfl rfl

/-! ## Frame lemmas for the handlers -/

theorem mem_connDiscard_self (l : List Conn) (c : Conn) :
    c ∉ connDiscard l c := by
  simp [connDiscard]

theorem mem_connDiscard_of_mem (l : List Conn) (c x : Conn) (h : x ∈ l)
    (hx : x ≠ c) : x ∈ connDiscard l c := by
  simp [connDiscard, List.mem_filter, h, hx]

theorem mem_connAdd_of_mem (l : List Conn) (c x : Conn) (h : x ∈ l) :
    x ∈ connAdd l c := by
  unfold connAdd
  split
  · exact h
  · exact List.mem_cons_of_mem _ h

theorem mem_connAdd_iff (l : List Conn) (c x : Conn) :
    x ∈ connAdd l c ↔ x = c ∨ x ∈ l := by
  unfold connAdd
  split
  · rename_i hc
    constructor
    · exact .inr
    · rintro (rfl | h)
      · exact hc
      · exact h
  · exact List.mem_cons

/-- `handle_agent_message` never touches the registry, the classification
sets or the list-tools correlation table. -/
theorem handle_agent_frame (sendOk : Conn → Bool) (sendErr : Conn → String)
    (tabReply : String → Option (List (List (String × JValue))))
    (s : ServerState) (ws : Conn) (msg : JValue) :
    (handle_agent_message sendOk sendErr tabReply s ws msg).1.browsers = s.browsers
    ∧ (handle_agent_message sendOk sendErr tabReply s ws msg).1.agents = s.agents
    ∧ (handle_agent_message sendOk sendErr tabReply s ws msg).1.unclassified
        = s.unclassified
    ∧ (handle_agent_message sendOk sendErr tabReply s ws msg).1.pending_list_tools
        = s.pending_list_tools := by
  unfold handle_agent_message
  split
  · exact ⟨rfl, rfl, rfl, rfl⟩
  · split <;> exact ⟨rfl, rfl, rfl, rfl⟩
  · split
    · exact ⟨rfl, rfl, rfl, rfl⟩
    · split <;> exact ⟨rfl, rfl, rfl, rfl⟩
  · exact ⟨rfl, rfl, rfl, rfl⟩
  · exact ⟨rfl, rfl, rfl, rfl⟩

/-- `handle_browser_message` never touches the registry, the
classification sets, the pending-call table beyond popping, or the
aggregation table. -/
theorem handle_browser_frame (s : ServerState) (ws : Conn) (msg : JValue) :
    (handle_browser_message s ws msg).1.browsers = s.browsers
    ∧ (handle_browser_message s ws msg).1.agents = s.agents
    ∧ (handle_browser_message s ws msg).1.unclassified = s.unclassified
    ∧ (handle_browser_message s ws msg).1.pending_tab_groups
        = s.pending_tab_groups := by
  unfold handle_browser_message
  split
  · dsimp only
    split <;> exact ⟨rfl, rfl, rfl, rfl⟩
  · split
    · split <;> exact ⟨rfl, rfl, rfl, rfl⟩
    · exact ⟨rfl, rfl, rfl, rfl⟩
  · exact ⟨rfl, rfl, rfl, rfl⟩
  · exact ⟨rfl, rfl, rfl, rfl⟩
  · exact ⟨rfl, rfl, rfl, rfl⟩

/-! ## C2: cleanup on browser disconnect -/

/-- Pending tool call `t1` in flight (recorded against agent 3) while
browsers `e1` and `e2` are connected. -/
def sPending : ServerState :=
  { sTwoBrowsers with pending_requests := [("t1", 3)] }

/-- C2 is false as stated: with a request `t1` in flight against browser
`e2` (connection 2), the disconnect of the unrelated browser `e1`
(connection 1) still drains the pending-request table, answering `t1`
with a synthetic error naming `e1` — entries in flight against other
connections are not left unchanged. -/
theorem C2_counterexample :
    (cleanup sPending 1).1.browsers = [("e2", mkBC 2 "e2")]
    ∧ (cleanup sPending 1).1.pending_requests = []
    ∧ (cleanup sPending 1).2
        = [.send 3 (toolResultError "t1" "Browser \x27e1\x27 disconnected")] := by
  exact ⟨rfl, rfl, rfl⟩

/-- C2 (amended): when a Browser disconnects, every pending `tool_call`
— whichever Browser it was sent to — is answered with a synthetic error
`tool_result` carrying its `tool_use_id`, and the entire pending-request
table is drained; when a non-Browser connection disconnects, only that
connection's own entries are removed. -/
theorem C2_cleanup_drains :
    (∀ s ws e, (s.browsers.filter (fun p => p.2.ws == ws)).map (fun p => p.1)
        = [e] →
      (cleanup s ws).1.pending_requests = []
      ∧ (cleanup s ws).2 = s.pending_requests.map (fun p =>
          Output.send p.2 (toolResultError p.1
            ("Browser \x27" ++ e ++ "\x27 disconnected")))
      ∧ (cleanup s ws).1.browsers = dictPop s.browsers e)
    ∧ (∀ s ws, s.browsers.filter (fun p => p.2.ws == ws) = [] →
      (cleanup s ws).1.pending_requests
          = s.pending_requests.filter (fun p => p.2 != ws)
      ∧ (cleanup s ws).2 = []
      ∧ (cleanup s ws).1.browsers = s.browsers) := by
  constructor
  · intro s ws e he
    have hni : ws ∉ connDiscard s.agents ws := mem_connDiscard_self _ _
    simp only [cleanup, he, List.foldl_cons, List.foldl_nil, cleanupEmailStep]
    simp [hni]
  · intro s ws he
    simp only [cleanup, he, List.map_nil, List.foldl_nil]
    simp

/-- Closed instantiation of `C2_cleanup_drains`: browser `e1` disconnects
while `t1` is pending; then agent 3 disconnects in a state where it has a
pending entry. -/
theorem C2_cleanup_drains_witness :
    ((cleanup sPending 1).1.pending_requests = []
      ∧ (cleanup sPending 1).2 = sPending.pending_requests.map (fun p =>
          Output.send p.2 (toolResultError p.1
            ("Browser \x27" ++ "e1" ++ "\x27 disconnected")))
      ∧ (cleanup sPending 1).1.browsers = dictPop sPending.browsers "e1")
    ∧ ((cleanup sPending 3).1.pending_requests
          = sPending.pending_requests.filter (fun p => p.2 != 3)
      ∧ (cleanup sPending 3).2 = []
      ∧ (cleanup sPending 3).1.browsers = sPending.browsers) := by
  exact ⟨C2_cleanup_drains.1 sPending 1 "e1" rfl,
    C2_cleanup_drains.2 sPending 3 rfl⟩

/-! ## C3: classification by first message -/

theorem mem_connAdd_self (l : List Conn) (c : Conn) : c ∈ connAdd l c := by
  unfold connAdd
  split
  · assumption
  · exact List.mem_cons_self c l

/-- Event sequence: connection 1 is accepted, classified as Agent by a
first message of type `hello`, then sends `extension_connected`. -/
def evsC3 : List Event :=
  [.connect 1,
   .message okAll errAll noTabs 1 (.obj [("type", .str "hello")]),
   .message okAll errAll noTabs 1
     (.obj [("type", .str "extension_connected"), ("email", .str "e")])]

/-- C3 is false as stated: a connection classified as Agent by its first
message is installed in the Browser registry when it later sends
`extension_connected` — the `extension_connected` branch of
`route_message` runs before the classification check, so the Agent
classification does not preclude a later Browser registration. -/
theorem C3_counterexample :
    1 ∈ (runEvents initState evsC3).agents
    ∧ dictGet (runEvents initState evsC3).browsers "e"
        = some { ws := 1, email := "e", tools := [], tool_schemas := [] } := by
  constructor
  · show (1 : Conn) ∈ [1]
    decide
  · rfl

/-- C3 (amended): the first message does classify — `extension_connected`
registers the connection as a Browser, anything else adds it to the agent
set — and the dispatch classification is stable: an Agent stays
dispatched as an Agent and a Browser-classified connection never enters
the agent set; but a later `extension_connected` from an Agent-classified
connection additionally installs it in the Browser registry (while it
also stays an Agent). -/
theorem C3_classification :
    (∀ sendOk sendErr tabReply s ws msg, ws ∈ s.unclassified →
        jType msg = some "extension_connected" →
        ws ∉ (route_message sendOk sendErr tabReply s ws msg).1.unclassified
        ∧ dictGet (route_message sendOk sendErr tabReply s ws msg).1.browsers
            (jGetStrD msg "email" "unknown")
          = some { ws := ws, email := jGetStrD msg "email" "unknown",
                   tools := jGetArrD msg "tools",
                   tool_schemas := jGetArrD msg "tool_schemas" })
    ∧ (∀ sendOk sendErr tabReply s ws msg, ws ∈ s.unclassified →
        jType msg ≠ some "extension_connected" →
        ws ∈ (route_message sendOk sendErr tabReply s ws msg).1.agents
        ∧ ws ∉ (route_message sendOk sendErr tabReply s ws msg).1.unclassified)
    ∧ (∀ sendOk sendErr tabReply s c msg ws, ws ∈ s.agents →
        ws ∈ (route_message sendOk sendErr tabReply s c msg).1.agents)
    ∧ (∀ sendOk sendErr tabReply s c msg ws, ws ∉ s.unclassified →
        ws ∉ s.agents →
        ws ∉ (route_message sendOk sendErr tabReply s c msg).1.agents)
    ∧ (∀ sendOk sendErr tabReply s ws msg, ws ∈ s.agents →
        jType msg = some "extension_connected" →
        ws ∈ (route_message sendOk sendErr tabReply s ws msg).1.agents
        ∧ dictGet (route_message sendOk sendErr tabReply s ws msg).1.browsers
            (jGetStrD msg "email" "unknown")
          = some { ws := ws, email := jGetStrD msg "email" "unknown",
                   tools := jGetArrD msg "tools",
                   tool_schemas := jGetArrD msg "tool_schemas" }) := by
  have hext : ∀ (msg : JValue), jType msg = some "extension_connected" →
      (jType msg == some "extension_connected") = true := by
    intro msg h
    simp [h]
  have hnext : ∀ (msg : JValue), jType msg ≠ some "extension_connected" →
      (jType msg == some "extension_connected") = false := by
    intro msg h
    simpa using h
  refine ⟨?_, ?_, ?_, ?_, ?_⟩
  · intro sendOk sendErr tabReply s ws msg _ ht
    rw [route_message, if_pos (hext msg ht)]
    exact ⟨mem_connDiscard_self _ _, dictGet_insert_self _ _ _⟩
  · intro sendOk sendErr tabReply s ws msg hu ht
    rw [route_message, if_neg (by simp [hnext msg ht])]
    dsimp only
    rw [if_pos hu]
    have hmem : ws ∈ connAdd s.agents ws := mem_connAdd_self _ _
    rw [if_pos hmem]
    refine ⟨?_, ?_⟩
    · rw [(handle_agent_frame sendOk sendErr tabReply _ ws msg).2.1]
      exact hmem
    · rw [(handle_agent_frame sendOk sendErr tabReply _ ws msg).2.2.1]
      exact mem_connDiscard_self _ _
  · intro sendOk sendErr tabReply s c msg ws hws
    by_cases hx : (jType msg == some "extension_connected") = true
    · rw [route_message, if_pos hx]
      exact hws
    · rw [route_message, if_neg hx]
      dsimp only
      by_cases hu : c ∈ s.unclassified
      · rw [if_pos hu]
        have hmem : ws ∈ connAdd s.agents c := mem_connAdd_of_mem _ _ _ hws
        by_cases ha : c ∈ connAdd s.agents c
        · rw [if_pos ha,
            (handle_agent_frame sendOk sendErr tabReply _ c msg).2.1]
          exact hmem
        · rw [if_neg ha, (handle_browser_frame _ c msg).2.1]
          exact hmem
      · rw [if_neg hu]
        by_cases ha : c ∈ s.agents
        · rw [if_pos ha,
            (handle_agent_frame sendOk sendErr tabReply _ c msg).2.1]
          exact hws
        · rw [if_neg ha, (handle_browser_frame _ c msg).2.1]
          exact hws
  · intro sendOk sendErr tabReply s c msg ws hwu hwa
    by_cases hx : (jType msg == some "extension_connected") = true
    · rw [route_message, if_pos hx]
      exact hwa
    · rw [route_message, if_neg hx]
      dsimp only
      by_cases hu : c ∈ s.unclassified
      · rw [if_pos hu]
        have hne : ws ≠ c := fun h => hwu (h ▸ hu)
        have hmem : ws ∉ connAdd s.agents c := by
          rw [mem_connAdd_iff]
          rintro (h | h)
          · exact hne h
          · exact hwa h
        by_cases ha : c ∈ connAdd s.agents c
        · rw [if_pos ha,
            (handle_agent_frame sendOk sendErr tabReply _ c msg).2.1]
          exact hmem
        · rw [if_neg ha, (handle_browser_frame _ c msg).2.1]
          exact hmem
      · rw [if_neg hu]
        by_cases ha : c ∈ s.agents
        · rw [if_pos ha,
            (handle_agent_frame sendOk sendErr tabReply _ c msg).2.1]
          exact hwa
        · rw [if_neg ha, (handle_browser_frame _ c msg).2.1]
          exact hwa
  · intro sendOk sendErr tabReply s ws msg hwa ht
    rw [route_message, if_pos (hext msg ht)]
    exact ⟨hwa, dictGet_insert_self _ _ _⟩

/-- Closed instantiation of `C3_classification` on concrete states and
messages. -/
theorem C3_classification_witness :
    (1 ∉ (route_message okAll errAll noTabs
        { initState with unclassified := [1] } 1
        (.obj [("type", .str "extension_connected"), ("email", .str "e")])).1.unclassified
      ∧ dictGet (route_message okAll errAll noTabs
          { initState with unclassified := [1] } 1
          (.obj [("type", .str "extension_connected"), ("email", .str "e")])).1.browsers
          "e" = some { ws := 1, email := "e", tools := [], tool_schemas := [] })
    ∧ (2 ∈ (route_message okAll errAll noTabs
        { initState with unclassified := [2] } 2
        (.obj [("type", .str "hello")])).1.agents
      ∧ 2 ∉ (route_message okAll errAll noTabs
          { initState with unclassified := [2] } 2
          (.obj [("type", .str "hello")])).1.unclassified)
    ∧ 3 ∈ (route_message okAll errAll noTabs
        { initState with agents := [3] } 3
        (.obj [("type", .str "list_browsers")])).1.agents
    ∧ 1 ∉ (route_message okAll errAll noTabs
        { initState with browsers := [("e1", mkBC 1 "e1")] } 1
        (.obj [("type", .str "pong")])).1.agents
    ∧ (1 ∈ (route_message okAll errAll noTabs
        { initState with agents := [1] } 1
        (.obj [("type", .str "extension_connected"), ("email", .str "e")])).1.agents
      ∧ dictGet (route_message okAll errAll noTabs
          { initState with agents := [1] } 1
          (.obj [("type", .str "extension_connected"), ("email", .str "e")])).1.browsers
          "e" = some { ws := 1, email := "e", tools := [], tool_schemas := [] }) := by
  refine ⟨?_, ?_, ?_, ?_, ?_⟩
  · have h := C3_classification.1 okAll errAll noTabs
      { initState with unclassified := [1] } 1
      (.obj [("type", .str "extension_connected"), ("email", .str "e")])
      (by decide) rfl
    exact h
  · exact C3_classification.2.1 okAll errAll noTabs
      { initState with unclassified := [2] } 2
      (.obj [("type", .str "hello")]) (by decide) (by decide)
  · exact C3_classification.2.2.1 okAll errAll noTabs
      { initState with agents := [3] } 3
      (.obj [("type", .str "list_browsers")]) 3 (by decide)
  · exact C3_classification.2.2.2.1 okAll errAll noTabs
      { initState with browsers := [("e1", mkBC 1 "e1")] } 1
      (.obj [("type", .str "pong")]) 1 (by decide) (by decide)
  · exact C3_classification.2.2.2.2 okAll errAll noTabs
      { initState with agents := [1] } 1
      (.obj [("type", .str "extension_connected"), ("email", .str "e")])
      (by decide) rfl

/-! ## C4: correlation of tool_call and tool_result -/

theorem dictGet_filter_ne {α : Type} (l : List (String × α)) (k b : String)
    (hk : k ≠ b) :
    dictGet (l.filter (fun p => p.1 != b)) k = dictGet l k := by
  induction l with
  | nil => rfl
  | cons p t ih =>
    by_cases hp : p.1 = b
    · have hq : (p.1 != b) = false := by simp [hp]
      have h2 : (p.1 == k) = false := by
        rw [beq_eq_false_iff_ne, hp]
        exact fun h => hk h.symm
      simp only [List.filter_cons, hq, Bool.false_eq_true, if_false]
      rw [ih]
      simp [dictGet, List.find?_cons, h2]
    · have hq : (p.1 != b) = true := by simp [hp]
      simp only [List.filter_cons, hq, if_true]
      by_cases h2 : p.1 = k
      · simp [dictGet, List.find?_cons, h2]
      · have h2f : (p.1 == k) = false := by simp [h2]
        simp only [dictGet, List.find?_cons, h2f]
        exact ih

/-- Stripping the targeting field changes no other field. -/
theorem jGetStr_stripBrowser (m : JValue) (k : String) (hk : k ≠ "browser") :
    jGetStr (jStripBrowser m) k = jGetStr m k := by
  cases m with
  | obj fs =>
    simp only [jStripBrowser, jGetStr, jGet, dictGet_filter_ne fs k "browser" hk]
  | null => rfl
  | bool b => rfl
  | num n => rfl
  | str s => rfl
  | arr xs => rfl

/-- Output is a `tool_result` addressed to `dest` carrying `tid`. -/
def isToolResultTo (dest : Conn) (tid : String) : Output → Bool
  | .send d m => d == dest && (jType m == some "tool_result")
      && (jGetStr m "tool_use_id" == some tid)
  | .close _ => false

/-- Number of `tool_result` messages for `tid` delivered to `dest`. -/
def countToolResults (dest : Conn) (tid : String) (outs : List Output) : Nat :=
  (outs.filter (isToolResultTo dest tid)).length

theorem isToolResultTo_toolResultError (ws : Conn) (tid content : String) :
    isToolResultTo ws tid (.send ws (toolResultError tid content)) = true := by
  simp [isToolResultTo, toolResultError, jType, jGetStr, jGet, dictGet]

theorem isToolResultTo_other_id (ws d : Conn) (tid tid2 content : String)
    (h : tid2 ≠ tid) :
    isToolResultTo ws tid (.send d (toolResultError tid2 content)) = false := by
  simp [isToolResultTo, toolResultError, jType, jGetStr, jGet, dictGet, h]

theorem isToolResultTo_of_type_ne (d ws : Conn) (tid : String) (m : JValue)
    (hm : jType m = some "tool_call") :
    isToolResultTo ws tid (.send d m) = false := by
  simp [isToolResultTo, hm]

/-- In a table with distinct keys holding `tid ↦ ws`, exactly the entry
`(tid, ws)` matches the pair. -/
theorem filter_pair_eq_singleton (pending : List (String × Conn))
    (tid : String) (ws : Conn) (hnd : NodupKeys pending)
    (hget : dictGet pending tid = some ws) :
    pending.filter (fun p => p.2 == ws && p.1 == tid) = [(tid, ws)] := by
  induction pending with
  | nil => simp [dictGet] at hget
  | cons p t ih =>
    rw [NodupKeys, dictKeys] at hnd
    simp only [List.map_cons, List.nodup_cons] at hnd
    by_cases hp : p.1 = tid
    · have hfind : dictGet (p :: t) tid = some p.2 := by
        simp [dictGet, List.find?_cons, hp]
      have hpw : p.2 = ws := by
        rw [hget] at hfind
        exact (Option.some.inj hfind).symm
      have hq : (p.2 == ws && p.1 == tid) = true := by simp [hp, hpw]
      have htail : t.filter (fun p => p.2 == ws && p.1 == tid) = [] := by
        rw [List.filter_eq_nil_iff]
        intro q hqmem
        have hqk : q.1 ≠ tid := by
          intro hfalse
          exact hnd.1 (hp ▸ hfalse ▸ List.mem_map_of_mem (fun r => r.1) hqmem)
        simp [hqk]
      have hpair : p = (tid, ws) := by
        rcases p with ⟨p1, p2⟩
        simp only at hp hpw
        rw [hp, hpw]
      simp only [List.filter_cons, hq, if_true, htail, hpair]
      simp
    · have hq : (p.2 == ws && p.1 == tid) = false := by simp [hp]
      have hget2 : dictGet t tid = some ws := by
        have hpf : (p.1 == tid) = false := by simp [hp]
        simpa [dictGet, List.find?_cons, hpf] using hget
      simp only [List.filter_cons, hq, Bool.false_eq_true, if_false]
      exact ih hnd.2 hget2

/-- The drain loop of `cleanup` emits exactly one synthetic `tool_result`
for each recorded `tool_use_id`. -/
theorem countToolResults_cleanup_map (pending : List (String × Conn))
    (tid : String) (ws : Conn) (content : String) (hnd : NodupKeys pending)
    (hget : dictGet pending tid = some ws) :
    countToolResults ws tid (pending.map (fun p =>
      Output.send p.2 (toolResultError p.1 content))) = 1 := by
  unfold countToolResults
  rw [List.filter_map, List.length_map]
  have hpred : ((isToolResultTo ws tid) ∘ (fun p : String × Conn =>
      Output.send p.2 (toolResultError p.1 content)))
      = fun p : String × Conn => p.2 == ws && p.1 == tid := by
    funext p
    simp [Function.comp, isToolResultTo, toolResultError, jType, jGetStr,
      jGet, dictGet]
  rw [hpred, filter_pair_eq_singleton pending tid ws hnd hget]
  rfl

/-- C4: a `tool_call` with a fresh `tool_use_id` yields exactly one
`tool_result` carrying that id on each path — resolution failure
(synthetic error, state unchanged), forwarding-send failure (entry
released, synthetic error, never retried), successful forward answered
by the Browser's `tool_result` (forwarded verbatim once, entry released,
late duplicates dropped), and the target Browser disconnecting mid-flight
(synthetic error, entry removed). -/
theorem C4_exactly_one_tool_result :
    (∀ sendOk sendErr tabReply s ws msg tid,
      jType msg = some "tool_call" →
      jGetStr msg "tool_use_id" = some tid →
      resolveBrowser s.browsers (jGetStr msg "browser") = none →
      countToolResults ws tid
          (handle_agent_message sendOk sendErr tabReply s ws msg).2 = 1
      ∧ (handle_agent_message sendOk sendErr tabReply s ws msg).1 = s)
    ∧ (∀ sendOk sendErr tabReply s ws msg tid bc,
      jType msg = some "tool_call" →
      jGetStr msg "tool_use_id" = some tid →
      resolveBrowser s.browsers (jGetStr msg "browser") = some bc →
      sendOk bc.ws = false →
      dictGet s.pending_requests tid = none →
      countToolResults ws tid
          (handle_agent_message sendOk sendErr tabReply s ws msg).2 = 1
      ∧ (handle_agent_message sendOk sendErr tabReply s ws msg).1.pending_requests
          = s.pending_requests)
    ∧ (∀ sendOk sendErr tabReply s ws msg tid bc,
      jType msg = some "tool_call" →
      jGetStr msg "tool_use_id" = some tid →
      resolveBrowser s.browsers (jGetStr msg "browser") = some bc →
      sendOk bc.ws = true →
      dictGet s.pending_requests tid = none →
      countToolResults ws tid
          (handle_agent_message sendOk sendErr tabReply s ws msg).2 = 0
      ∧ (handle_agent_message sendOk sendErr tabReply s ws msg).1.pending_requests
          = dictInsert s.pending_requests tid ws
      ∧ (∀ s1 bws msg2,
          jType msg2 = some "tool_result" →
          jGetStr msg2 "tool_use_id" = some tid →
          s1.pending_requests = dictInsert s.pending_requests tid ws →
          handle_browser_message s1 bws msg2
            = ({ s1 with pending_requests := s.pending_requests },
               [.send ws msg2])
          ∧ countToolResults ws tid (handle_browser_message s1 bws msg2).2 = 1)
      ∧ (∀ s2 bws msg2,
          jType msg2 = some "tool_result" →
          jGetStr msg2 "tool_use_id" = some tid →
          s2.pending_requests = s.pending_requests →
          (handle_browser_message s2 bws msg2).2 = []))
    ∧ (∀ s wsB e ws tid,
      (s.browsers.filter (fun p => p.2.ws == wsB)).map (fun p => p.1) = [e] →
      NodupKeys s.pending_requests →
      dictGet s.pending_requests tid = some ws →
      countToolResults ws tid (cleanup s wsB).2 = 1
      ∧ (cleanup s wsB).1.pending_requests = []) := by
  refine ⟨?_, ?_, ?_, ?_⟩
  · intro sendOk sendErr tabReply s ws msg tid ht htid hr
    have htd : jGetStrD msg "tool_use_id" "" = tid := by
      simp [jGetStrD, htid]
    simp only [handle_agent_message, ht, hr, htd]
    refine ⟨?_, by trivial⟩
    simp [countToolResults, isToolResultTo_toolResultError]
  · intro sendOk sendErr tabReply s ws msg tid bc ht htid hr hsend hfresh
    have htd : jGetStrD msg "tool_use_id" "" = tid := by
      simp [jGetStrD, htid]
    have hfwd : jType (jStripBrowser msg) = some "tool_call" := by
      rw [jType, jGetStr_stripBrowser msg "type" (by decide)]
      exact ht
    simp only [handle_agent_message, ht, hr, htd, hsend, Bool.false_eq_true,
      if_false]
    constructor
    · simp [countToolResults, List.filter_cons,
        isToolResultTo_of_type_ne bc.ws ws tid _ hfwd,
        isToolResultTo_toolResultError]
    · exact dictPop_insert_fresh s.pending_requests tid ws hfresh
  · intro sendOk sendErr tabReply s ws msg tid bc ht htid hr hsend hfresh
    have htd : jGetStrD msg "tool_use_id" "" = tid := by
      simp [jGetStrD, htid]
    have hfwd : jType (jStripBrowser msg) = some "tool_call" := by
      rw [jType, jGetStr_stripBrowser msg "type" (by decide)]
      exact ht
    simp only [handle_agent_message, ht, hr, htd, hsend, if_true]
    refine ⟨?_, by trivial, ?_, ?_⟩
    · simp [countToolResults, List.filter_cons,
        isToolResultTo_of_type_ne bc.ws ws tid _ hfwd]
    · intro s1 bws msg2 ht2 htid2 hs1
      have htd2 : jGetStrD msg2 "tool_use_id" "" = tid := by
        simp [jGetStrD, htid2]
      have hlook : dictGet s1.pending_requests tid = some ws := by
        rw [hs1]
        exact dictGet_insert_self _ _ _
      have hpop : dictPop s1.pending_requests tid = s.pending_requests := by
        rw [hs1]
        exact dictPop_insert_fresh _ _ _ hfresh
      constructor
      · simp only [handle_browser_message, ht2, htd2, hlook, hpop]
      · simp only [handle_browser_message, ht2, htd2, hlook]
        simp [countToolResults, List.filter_cons, isToolResultTo, ht2, htid2]
    · intro s2 bws msg2 ht2 htid2 hs2
      have htd2 : jGetStrD msg2 "tool_use_id" "" = tid := by
        simp [jGetStrD, htid2]
      have hlook : dictGet s2.pending_requests tid = none := by
        rw [hs2]
        exact hfresh
      simp only [handle_browser_message, ht2, htd2, hlook]
  · intro s wsB e ws tid he hnd hget
    have hni : wsB ∉ connDiscard s.agents wsB := mem_connDiscard_self _ _
    have houts : (cleanup s wsB).2 = s.pending_requests.map (fun p =>
        Output.send p.2 (toolResultError p.1
          ("Browser \x27" ++ e ++ "\x27 disconnected"))) := by
      simp only [cleanup, he, List.foldl_cons, List.foldl_nil, cleanupEmailStep]
      simp [hni]
    have hpend : (cleanup s wsB).1.pending_requests = [] := by
      simp only [cleanup, he, List.foldl_cons, List.foldl_nil, cleanupEmailStep]
      simp [hni]
    refine ⟨?_, hpend⟩
    rw [houts]
    exact countToolResults_cleanup_map s.pending_requests tid ws _ hnd hget

/-- Concrete `tool_call` with id `t1`, no targeting hint. -/
def msgTC : JValue := .obj [("type", .str "tool_call"), ("tool_use_id", .str "t1")]

/-- Concrete `tool_result` for id `t1`. -/
def msgTR : JValue :=
  .obj [("type", .str "tool_result"), ("tool_use_id", .str "t1")]

/-- State of `sOneBrowser` after `t1` was recorded for agent 3. -/
def sInFlight : ServerState :=
  { sOneBrowser with
    pending_requests := dictInsert sOneBrowser.pending_requests "t1" 3 }

/-- Closed instantiation of `C4_exactly_one_tool_result` on concrete
states and messages, covering all four paths. -/
theorem C4_exactly_one_tool_result_witness :
    (countToolResults 3 "t1"
        (handle_agent_message okAll errAll noTabs initState 3 msgTC).2 = 1
      ∧ (handle_agent_message okAll errAll noTabs initState 3 msgTC).1
          = initState)
    ∧ (countToolResults 3 "t1"
        (handle_agent_message failAll errAll noTabs sOneBrowser 3 msgTC).2 = 1
      ∧ (handle_agent_message failAll errAll noTabs sOneBrowser 3
          msgTC).1.pending_requests = sOneBrowser.pending_requests)
    ∧ (countToolResults 3 "t1"
        (handle_agent_message okAll errAll noTabs sOneBrowser 3 msgTC).2 = 0
      ∧ (handle_agent_message okAll errAll noTabs sOneBrowser 3
          msgTC).1.pending_requests
          = dictInsert sOneBrowser.pending_requests "t1" 3
      ∧ (handle_browser_message sInFlight 1 msgTR
          = ({ sInFlight with pending_requests := sOneBrowser.pending_requests },
             [.send 3 msgTR])
        ∧ countToolResults 3 "t1" (handle_browser_message sInFlight 1 msgTR).2
            = 1)
      ∧ (handle_browser_message sOneBrowser 1 msgTR).2 = [])
    ∧ (countToolResults 3 "t1" (cleanup sPending 2).2 = 1
      ∧ (cleanup sPending 2).1.pending_requests = []) := by
  refine ⟨C4_exactly_one_tool_result.1 okAll errAll noTabs initState 3 msgTC
      "t1" rfl rfl rfl,
    C4_exactly_one_tool_result.2.1 failAll errAll noTabs sOneBrowser 3 msgTC
      "t1" (mkBC 1 "e1") rfl rfl rfl rfl rfl,
    ?_,
    C4_exactly_one_tool_result.2.2.2 sPending 2 "e2" 3 "t1" rfl
      (by unfold NodupKeys; decide) rfl⟩
  have h3 := C4_exactly_one_tool_result.2.2.1 okAll errAll noTabs sOneBrowser 3
    msgTC "t1" (mkBC 1 "e1") rfl rfl rfl rfl rfl
  exact ⟨h3.1, h3.2.1, h3.2.2.1 sInFlight 1 msgTR rfl rfl rfl,
    h3.2.2.2 sOneBrowser 1 msgTR rfl rfl rfl⟩

/-! ## C7: at most one Browser connection per email -/

theorem route_preserves_nodup (sendOk : Conn → Bool) (sendErr : Conn → String)
    (tabReply : String → Option (List (List (String × JValue))))
    (s : ServerState) (ws : Conn) (msg : JValue) (h : NodupKeys s.browsers) :
    NodupKeys (route_message sendOk sendErr tabReply s ws msg).1.browsers := by
  rw [route_message]
  split
  · exact nodupKeys_insert _ _ _ h
  · dsimp only
    split
    · split
      · rw [(handle_agent_frame sendOk sendErr tabReply _ ws msg).1]
        exact h
      · rw [(handle_browser_frame _ ws msg).1]
        exact h
    · split
      · rw [(handle_agent_frame sendOk sendErr tabReply _ ws msg).1]
        exact h
      · rw [(handle_browser_frame _ ws msg).1]
        exact h

theorem cleanupFold_preserves_nodup (emails : List String) :
    ∀ acc : ServerState × List Output, NodupKeys acc.1.browsers →
    NodupKeys (emails.foldl cleanupEmailStep acc).1.browsers := by
  induction emails with
  | nil =>
    intro acc h
    exact h
  | cons e t ih =>
    intro acc h
    rw [List.foldl_cons]
    exact ih _ (nodupKeys_filter _ _ h)

theorem cleanup_preserves_nodup (s : ServerState) (ws : Conn)
    (h : NodupKeys s.browsers) : NodupKeys (cleanup s ws).1.browsers := by
  rw [cleanup]
  dsimp only
  split
  · exact cleanupFold_preserves_nodup _ _ h
  · exact cleanupFold_preserves_nodup _ _ h

theorem stepEvent_preserves_nodup (s : ServerState) (e : Event)
    (h : NodupKeys s.browsers) : NodupKeys (stepEvent s e).1.browsers := by
  cases e with
  | connect c => exact h
  | message sendOk sendErr tabReply c msg =>
    exact route_preserves_nodup sendOk sendErr tabReply s c msg h
  | disconnect c => exact cleanup_preserves_nodup s c h

/-- C7: in every reachable state the Browser registry holds at most one
live connection per email; a re-announcing email whose previous holder is
a different connection closes that holder (best-effort) and replaces it,
and subsequent resolution for that email targets only the new
connection. -/
theorem C7_one_browser_per_email :
    (∀ evs, NodupKeys (runEvents initState evs).browsers)
    ∧ (∀ sendOk sendErr tabReply s ws msg email old,
        jType msg = some "extension_connected" →
        jGetStrD msg "email" "unknown" = email →
        dictGet s.browsers email = some old →
        old.ws ≠ ws →
        (route_message sendOk sendErr tabReply s ws msg).2 = [.close old.ws]
        ∧ dictGet (route_message sendOk sendErr tabReply s ws msg).1.browsers
            email
          = some { ws := ws, email := email, tools := jGetArrD msg "tools",
                   tool_schemas := jGetArrD msg "tool_schemas" })
    ∧ (∀ browsers (email : String) (bc : BrowserConnection), email ≠ "" →
        dictGet browsers email = some bc →
        resolveBrowser browsers (some email) = some bc) := by
  refine ⟨?_, ?_, ?_⟩
  · intro evs
    have hrun : ∀ s, NodupKeys s.browsers →
        NodupKeys (runEvents s evs).browsers := by
      induction evs with
      | nil =>
        intro s h
        exact h
      | cons e t ih =>
        intro s h
        rw [runEvents, List.foldl_cons]
        exact ih _ (stepEvent_preserves_nodup s e h)
    exact hrun initState (by simp [NodupKeys, initState, dictKeys])
  · intro sendOk sendErr tabReply s ws msg email old ht hem hold hne
    have hnew : (old.ws != ws) = true := by simp [hne]
    rw [route_message, if_pos (by simp [ht])]
    dsimp only
    rw [hem]
    have hold2 : dictGet
        { s with unclassified := connDiscard s.unclassified ws }.browsers email
        = some old := hold
    rw [hold2]
    dsimp only
    rw [hnew]
    exact ⟨rfl, dictGet_insert_self _ _ _⟩
  · intro browsers email bc hne hget
    rcases browsers with _ | ⟨p, t⟩
    · simp [dictGet] at hget
    · have hth : truthyHint (some email) = true := by simp [truthyHint, hne]
      simp only [resolveBrowser, List.isEmpty_cons, hth, if_true,
        Bool.false_eq_true, if_false]
      exact hget

/-- Closed instantiation of `C7_one_browser_per_email`: connection 5
re-announces `e1` (held by connection 1), which is closed and replaced;
resolution for `e1` then yields connection 5. -/
theorem C7_one_browser_per_email_witness :
    NodupKeys (runEvents initState evsC3).browsers
    ∧ ((route_message okAll errAll noTabs sOneBrowser 5
          (.obj [("type", .str "extension_connected"), ("email", .str "e1")])).2
        = [.close 1]
      ∧ dictGet (route_message okAll errAll noTabs sOneBrowser 5
          (.obj [("type", .str "extension_connected"),
            ("email", .str "e1")])).1.browsers "e1"
        = some { ws := 5, email := "e1", tools := [], tool_schemas := [] })
    ∧ resolveBrowser sTwoBrowsers.browsers (some "e2") = some (mkBC 2 "e2") := by
  refine ⟨C7_one_browser_per_email.1 evsC3, ?_, ?_⟩
  · exact C7_one_browser_per_email.2.1 okAll errAll noTabs sOneBrowser 5
      (.obj [("type", .str "extension_connected"), ("email", .str "e1")])
      "e1" (mkBC 1 "e1") rfl rfl rfl (by decide)
  · exact C7_one_browser_per_email.2.2 sTwoBrowsers.browsers "e2" (mkBC 2 "e2")
      (by decide) rfl

/-! ## C10: the list-tools correlation table is never populated -/

theorem handle_browser_plt_empty (s : ServerState) (ws : Conn) (msg : JValue)
    (h : s.pending_list_tools = []) :
    (handle_browser_message s ws msg).1.pending_list_tools = [] := by
  unfold handle_browser_message
  split
  · dsimp only
    split
    · simp [h, dictPop]
    · simp [h, dictPop]
  · split
    · split
      · simp [h, dictPop]
      · simp [h, dictPop]
    · exact h
  · exact h
  · exact h
  · exact h

theorem cleanupFold_plt (emails : List String) :
    ∀ acc : ServerState × List Output,
    (emails.foldl cleanupEmailStep acc).1.pending_list_tools
      = acc.1.pending_list_tools := by
  induction emails with
  | nil =>
    intro acc
    rfl
  | cons e t ih =>
    intro acc
    rw [List.foldl_cons, ih]
    rfl

theorem cleanup_plt (s : ServerState) (ws : Conn) :
    (cleanup s ws).1.pending_list_tools = s.pending_list_tools := by
  rw [cleanup]
  dsimp only
  split
  · exact cleanupFold_plt _ _
  · exact cleanupFold_plt _ _

theorem route_plt_empty (sendOk : Conn → Bool) (sendErr : Conn → String)
    (tabReply : String → Option (List (List (String × JValue))))
    (s : ServerState) (ws : Conn) (msg : JValue)
    (h : s.pending_list_tools = []) :
    (route_message sendOk sendErr tabReply s ws msg).1.pending_list_tools
      = [] := by
  rw [route_message]
  split
  · exact h
  · dsimp only
    split
    · split
      · rw [(handle_agent_frame sendOk sendErr tabReply _ ws msg).2.2.2]
        exact h
      · exact handle_browser_plt_empty _ ws msg h
    · split
      · rw [(handle_agent_frame sendOk sendErr tabReply _ ws msg).2.2.2]
        exact h
      · exact handle_browser_plt_empty _ ws msg h

theorem stepEvent_plt_empty (s : ServerState) (e : Event)
    (h : s.pending_list_tools = []) :
    (stepEvent s e).1.pending_list_tools = [] := by
  cases e with
  | connect c => exact h
  | message sendOk sendErr tabReply c msg =>
    exact route_plt_empty sendOk sendErr tabReply s c msg h
  | disconnect c => exact (cleanup_plt s c).trans h

/-- C10: in every reachable state the pending list-tools correlation
table is empty — no operation ever inserts into it, `list_tools` being
answered synchronously from the registry metadata — and consequently a
`tool_list` message received in any reachable state, on any connection,
is dropped without being delivered to anyone. -/
theorem C10_list_tools_table_empty :
    (∀ evs, (runEvents initState evs).pending_list_tools = [])
    ∧ (∀ sendOk sendErr tabReply s c msg,
        s.pending_list_tools = [] →
        jType msg = some "tool_list" →
        (route_message sendOk sendErr tabReply s c msg).2 = [])
    ∧ (∀ evs sendOk sendErr tabReply c msg,
        jType msg = some "tool_list" →
        (stepEvent (runEvents initState evs)
          (.message sendOk sendErr tabReply c msg)).2 = []) := by
  have hrunEmpty : ∀ evs, (runEvents initState evs).pending_list_tools = [] := by
    intro evs
    have hrun : ∀ s, s.pending_list_tools = [] →
        (runEvents s evs).pending_list_tools = [] := by
      induction evs with
      | nil =>
        intro s h
        exact h
      | cons e t ih =>
        intro s h
        rw [runEvents, List.foldl_cons]
        exact ih _ (stepEvent_plt_empty s e h)
    exact hrun initState rfl
  have hdrop : ∀ sendOk sendErr tabReply (s : ServerState) (c : Conn) msg,
      s.pending_list_tools = [] →
      jType msg = some "tool_list" →
      (route_message sendOk sendErr tabReply s c msg).2 = [] := by
    intro sendOk sendErr tabReply s c msg hp ht
    have hagent : ∀ s1 : ServerState,
        (handle_agent_message sendOk sendErr tabReply s1 c msg).2 = [] := by
      intro s1
      simp only [handle_agent_message, ht]
      rfl
    have hbrowser : ∀ s1 : ServerState, s1.pending_list_tools = [] →
        (handle_browser_message s1 c msg).2 = [] := by
      intro s1 hp1
      simp only [handle_browser_message, ht, hp1]
      split
      · simp [dictGet]
      · rfl
    rw [route_message]
    split
    · rename_i hx
      rw [ht] at hx
      simp at hx
    · dsimp only
      split
      · split
        · exact hagent _
        · exact hbrowser _ hp
      · split
        · exact hagent _
        · exact hbrowser _ hp
  refine ⟨hrunEmpty, hdrop, ?_⟩
  intro evs sendOk sendErr tabReply c msg ht
  exact hdrop sendOk sendErr tabReply _ c msg (hrunEmpty evs) ht

/-- Closed instantiation of `C10_list_tools_table_empty`: a `tool_list`
sent by the registered browser is dropped. -/
theorem C10_list_tools_table_empty_witness :
    (runEvents initState evsC3).pending_list_tools = []
    ∧ (route_message okAll errAll noTabs sOneBrowser 1
        (.obj [("type", .str "tool_list"), ("tools", .arr [])])).2 = []
    ∧ (stepEvent (runEvents initState evsC3) (.message okAll errAll noTabs 1
        (.obj [("type", .str "tool_list")]))).2 = [] := by
  exact ⟨C10_list_tools_table_empty.1 evsC3,
    C10_list_tools_table_empty.2.1 okAll errAll noTabs sOneBrowser 1
      (.obj [("type", .str "tool_list"), ("tools", .arr [])]) rfl rfl,
    C10_list_tools_table_empty.2.2 evsC3 okAll errAll noTabs 1
      (.obj [("type", .str "tool_list")]) rfl⟩

/-! ## C8: the list_tab_groups aggregation -/

/-- Net contribution of one browser to the merged group list: nothing on
timeout, the empty list on a failed fan-out send, its items tagged with
its email otherwise. -/
def slotContribution (sendOk : Conn → Bool)
    (tabReply : String → Option (List (List (String × JValue))))
    (p : String × BrowserConnection) : List JValue :=
  match slotOutcome sendOk tabReply p.1 p.2 with
  | some gs => tagGroups p.1 gs
  | none => []

/-- Output is a `tab_groups_list` reply addressed to `dest`. -/
def isTabGroupsListTo (dest : Conn) : Output → Bool
  | .send d m => d == dest && (jType m == some "tab_groups_list")
  | .close _ => false

theorem fanIn_eq_flatten
    (futures : List (String × Option (List (List (String × JValue))))) :
    fanIn futures = (futures.map (fun p =>
      match p.2 with
      | some gs => tagGroups p.1 gs
      | none => [])).flatten := by
  have haux : ∀ (fs : List (String × Option (List (List (String × JValue)))))
      (acc : List JValue),
      fs.foldl (fun acc p =>
        match p.2 with
        | some gs => acc ++ tagGroups p.1 gs
        | none => acc) acc
      = acc ++ (fs.map (fun p =>
          match p.2 with
          | some gs => tagGroups p.1 gs
          | none => [])).flatten := by
    intro fs
    induction fs with
    | nil =>
      intro acc
      simp
    | cons p t ih =>
      intro acc
      rw [List.foldl_cons]
      rcases p with ⟨e, o⟩
      cases o with
      | none =>
        rw [ih]
        simp
      | some gs =>
        rw [ih]
        simp
  rw [fanIn, haux futures []]
  simp

theorem popFold_subset (bs : List (String × BrowserConnection)) :
    ∀ (acc : List String) (x : String),
      x ∈ bs.foldl (fun acc p => acc.filter (fun e => e != p.1)) acc →
      x ∈ acc := by
  induction bs with
  | nil =>
    intro acc x h
    exact h
  | cons b t ih =>
    intro acc x h
    rw [List.foldl_cons] at h
    exact List.mem_of_mem_filter (ih _ x h)

theorem popFold_not_mem (bs : List (String × BrowserConnection)) :
    ∀ (acc : List String) (p : String × BrowserConnection), p ∈ bs →
      p.1 ∉ bs.foldl (fun acc p => acc.filter (fun e => e != p.1)) acc := by
  induction bs with
  | nil =>
    intro acc p h
    simp at h
  | cons b t ih =>
    intro acc p hmem hIn
    rw [List.foldl_cons] at hIn
    rcases List.mem_cons.mp hmem with heq | hmem2
    · subst heq
      have hsub := popFold_subset t _ _ hIn
      have h2 := List.mem_filter.mp hsub
      simp at h2
    · exact ih _ p hmem2 hIn

theorem insFold_mem (bs : List (String × BrowserConnection)) :
    ∀ (acc : List String) (x : String),
      x ∈ bs.foldl (fun acc p => if p.1 ∈ acc then acc else acc ++ [p.1]) acc →
      x ∈ acc ∨ ∃ p ∈ bs, x = p.1 := by
  induction bs with
  | nil =>
    intro acc x h
    exact .inl h
  | cons b t ih =>
    intro acc x h
    rw [List.foldl_cons] at h
    rcases ih _ x h with hacc | ⟨p, hp, hx⟩
    · by_cases hb : b.1 ∈ acc
      · rw [if_pos hb] at hacc
        exact .inl hacc
      · rw [if_neg hb] at hacc
        rcases List.mem_append.mp hacc with h1 | h1
        · exact .inl h1
        · have hxb : x = b.1 := by simpa using h1
          exact .inr ⟨b, List.mem_cons_self _ _, hxb⟩
    · exact .inr ⟨p, List.mem_cons_of_mem _ hp, hx⟩

/-- C8: aggregation failure is per-source — a browser whose fan-out send
fails contributes the empty list, one that never replies in time
contributes nothing, every delivered item is tagged with its owner's
email — exactly one merged `tab_groups_list` reply reaches the agent
(immediately, and empty, when no browser is connected), and every
aggregation slot is removed once resolved or timed out. -/
theorem C8_aggregation (sendOk : Conn → Bool) (sendErr : Conn → String)
    (tabReply : String → Option (List (List (String × JValue))))
    (s : ServerState) (ws : Conn) (msg : JValue)
    (ht : jType msg = some "list_tab_groups") :
    (handle_agent_message sendOk sendErr tabReply s ws msg).2
      = s.browsers.map (fun p => Output.send p.2.ws listTabGroupsReq)
        ++ [.send ws (tabGroupsListReply
            ((s.browsers.map (slotContribution sendOk tabReply)).flatten))]
    ∧ ((handle_agent_message sendOk sendErr tabReply s ws msg).2.filter
        (isTabGroupsListTo ws)).length = 1
    ∧ (∀ p : String × BrowserConnection, sendOk p.2.ws = false →
        slotContribution sendOk tabReply p = [])
    ∧ (∀ p : String × BrowserConnection, sendOk p.2.ws = true →
        tabReply p.1 = none → slotContribution sendOk tabReply p = [])
    ∧ (∀ (p : String × BrowserConnection) gs, sendOk p.2.ws = true →
        tabReply p.1 = some gs →
        slotContribution sendOk tabReply p = tagGroups p.1 gs
        ∧ ∀ g ∈ tagGroups p.1 gs, jGet g "browser" = some (.str p.1))
    ∧ (s.browsers = [] →
        (handle_agent_message sendOk sendErr tabReply s ws msg).2
          = [.send ws (tabGroupsListReply [])])
    ∧ (∀ p ∈ s.browsers, p.1 ∉ (handle_agent_message sendOk sendErr tabReply
        s ws msg).1.pending_tab_groups)
    ∧ (∀ e ∈ (handle_agent_message sendOk sendErr tabReply
        s ws msg).1.pending_tab_groups, e ∈ s.pending_tab_groups) := by
  have houts : (handle_agent_message sendOk sendErr tabReply s ws msg).2
      = s.browsers.map (fun p => Output.send p.2.ws listTabGroupsReq)
        ++ [.send ws (tabGroupsListReply
            ((s.browsers.map (slotContribution sendOk tabReply)).flatten))] := by
    simp only [handle_agent_message, ht]
    rw [List.map_map, List.map_map, fanIn_eq_flatten, List.map_map]
    rfl
  have hptg : (handle_agent_message sendOk sendErr tabReply s ws msg).1.pending_tab_groups
      = s.browsers.foldl (fun acc p => acc.filter (fun e => e != p.1))
          (s.browsers.foldl (fun acc p => if p.1 ∈ acc then acc else acc ++ [p.1])
            s.pending_tab_groups) := by
    simp only [handle_agent_message, ht]
  refine ⟨houts, ?_, ?_, ?_, ?_, ?_, ?_, ?_⟩
  · rw [houts, List.filter_append]
    have h1 : (s.browsers.map (fun p =>
        Output.send p.2.ws listTabGroupsReq)).filter (isTabGroupsListTo ws)
        = [] := by
      rw [List.filter_eq_nil_iff]
      intro o ho
      rcases List.mem_map.mp ho with ⟨p, _, hpo⟩
      rw [← hpo]
      simp [isTabGroupsListTo, listTabGroupsReq, jType, jGetStr, jGet, dictGet]
    have h2 : isTabGroupsListTo ws (Output.send ws (tabGroupsListReply
        ((s.browsers.map (slotContribution sendOk tabReply)).flatten)))
        = true := by
      simp [isTabGroupsListTo, tabGroupsListReply, jType, jGetStr, jGet, dictGet]
    rw [h1]
    simp [h2]
  · intro p hsend
    simp [slotContribution, slotOutcome, hsend, tagGroups]
  · intro p hsend hto
    simp [slotContribution, slotOutcome, hsend, hto]
  · intro p gs hsend hre
    refine ⟨by simp [slotContribution, slotOutcome, hsend, hre], ?_⟩
    intro g hg
    rcases List.mem_map.mp hg with ⟨g0, _, hg0⟩
    rw [← hg0]
    exact dictGet_insert_self _ _ _
  · intro hb
    rw [houts, hb]
    rfl
  · intro p hp
    rw [hptg]
    exact popFold_not_mem s.browsers _ p hp
  · intro e he
    rw [hptg] at he
    have hins := popFold_subset s.browsers _ e he
    rcases insFold_mem s.browsers _ e hins with h | ⟨p, hp, hx⟩
    · exact h
    · exact absurd (hx ▸ he) (popFold_not_mem s.browsers _ p hp)

/-- Closed instantiation of `C8_aggregation`: two browsers, the fan-out
send to `e1` (connection 1) fails, `e2` times out. -/
theorem C8_aggregation_witness :
    (handle_agent_message (fun c => c != 1) errAll noTabs sTwoBrowsers 3
        (.obj [("type", .str "list_tab_groups")])).2
      = sTwoBrowsers.browsers.map (fun p => Output.send p.2.ws listTabGroupsReq)
        ++ [.send 3 (tabGroupsListReply ((sTwoBrowsers.browsers.map
            (slotContribution (fun c => c != 1) noTabs)).flatten))]
    ∧ ((handle_agent_message (fun c => c != 1) errAll noTabs sTwoBrowsers 3
        (.obj [("type", .str "list_tab_groups")])).2.filter
          (isTabGroupsListTo 3)).length = 1
    ∧ slotContribution (fun c => c != 1) noTabs ("e1", mkBC 1 "e1") = []
    ∧ slotContribution (fun c => c != 1) noTabs ("e2", mkBC 2 "e2") = []
    ∧ (slotContribution (fun c => c != 1)
          (fun _ => some [[("id", .num 7)]]) ("e2", mkBC 2 "e2")
        = tagGroups "e2" [[("id", .num 7)]]
      ∧ ∀ g ∈ tagGroups "e2" [[("id", .num 7)]],
          jGet g "browser" = some (.str "e2"))
    ∧ (handle_agent_message okAll errAll noTabs initState 3
        (.obj [("type", .str "list_tab_groups")])).2
      = [.send 3 (tabGroupsListReply [])]
    ∧ (∀ p ∈ sTwoBrowsers.browsers, p.1 ∉ (handle_agent_message
        (fun c => c != 1) errAll noTabs sTwoBrowsers 3
        (.obj [("type", .str "list_tab_groups")])).1.pending_tab_groups) := by
  have h := C8_aggregation (fun c => c != 1) errAll noTabs sTwoBrowsers 3
    (.obj [("type", .str "list_tab_groups")]) rfl
  have h2 := C8_aggregation (fun c => c != 1) errAll
    (fun _ => some [[("id", .num 7)]]) sTwoBrowsers 3
    (.obj [("type", .str "list_tab_groups")]) rfl
  have h3 := C8_aggregation okAll errAll noTabs initState 3
    (.obj [("type", .str "list_tab_groups")]) rfl
  exact ⟨h.1, h.2.1, h.2.2.1 ("e1", mkBC 1 "e1") rfl,
    h.2.2.2.1 ("e2", mkBC 2 "e2") rfl rfl,
    h2.2.2.2.2.1 ("e2", mkBC 2 "e2") [[("id", .num 7)]] rfl rfl,
    h3.2.2.2.2.2.1 rfl,
    h.2.2.2.2.2.2.1⟩

/-! ## C9: the framed-channel round-trip law

The stack is proved bottom-up: decimal digits, hex quadruples, string
escapes, the value grammar, UTF-8 on the ASCII output of the encoder,
and the 4-byte length prefix. -/

theorem toNat_ofNat_valid (n : Nat) (h : n.isValidChar) :
    (Char.ofNat n).toNat = n := by
  rw [Char.ofNat, dif_pos h]
  simp [Char.ofNatAux, Char.toNat, UInt32.toNat, UInt32.ofNatCore]

theorem char_toNat_bounds (c : Char) :
    c.toNat < 55296 ∨ (57343 < c.toNat ∧ c.toNat < 1114112) := by
  rcases c.valid with h | ⟨h1, h2⟩
  · exact Or.inl h
  · exact Or.inr ⟨h1, h2⟩

theorem ne_of_toNat_ne (c d : Char) (h : c.toNat ≠ d.toNat) : c ≠ d :=
  fun he => h (he ▸ rfl)

theorem char_eq_ofNat_of_toNat (c : Char) (n : Nat) (h : c.toNat = n) :
    c = Char.ofNat n := by
  rw [← h, Char.ofNat_toNat]

theorem digitChar_toNat (d : Nat) (h : d < 10) :
    (digitChar d).toNat = 48 + d := by
  rw [digitChar]
  exact toNat_ofNat_valid _ (Or.inl (by omega))

theorem isDigitB_digitChar (d : Nat) (h : d < 10) :
    isDigitB (digitChar d) = true := by
  rw [isDigitB, digitChar_toNat d h]
  simp only [Bool.and_eq_true, decide_eq_true_eq]
  omega

theorem natToDigits_ne_nil (n : Nat) : natToDigits n ≠ [] := by
  rw [natToDigits]
  split
  · simp
  · simp

theorem natToDigits_digits (n : Nat) :
    ∀ c ∈ natToDigits n, 48 ≤ c.toNat ∧ c.toNat ≤ 57 := by
  induction n using Nat.strong_induction_on with
  | _ n ih =>
    rw [natToDigits]
    split
    · rename_i h
      intro c hc
      simp only [List.mem_singleton] at hc
      subst hc
      rw [digitChar_toNat n h]
      omega
    · rename_i h
      intro c hc
      rcases List.mem_append.mp hc with h1 | h1
      · exact ih (n / 10) (Nat.div_lt_self (by omega) (by omega)) c h1
      · simp only [List.mem_singleton] at h1
        subst h1
        rw [digitChar_toNat _ (Nat.mod_lt _ (by omega))]
        omega

theorem parseDigits_append (n : Nat) : ∀ (acc : Nat) (rest : List Char),
    parseDigits acc (natToDigits n ++ rest)
      = parseDigits (acc * 10 ^ (natToDigits n).length + n) rest := by
  induction n using Nat.strong_induction_on with
  | _ n ih =>
    intro acc rest
    rw [natToDigits]
    split
    · rename_i h
      simp only [List.singleton_append, List.length_singleton, parseDigits,
        isDigitB_digitChar n h, if_true, digitChar_toNat n h]
      have harith : 10 * acc + (48 + n - 48) = acc * 10 ^ 1 + n := by
        rw [pow_one]
        omega
      rw [harith]
      rfl
    · rename_i h
      have hd : n / 10 < n := Nat.div_lt_self (by omega) (by omega)
      have hm : n % 10 < 10 := Nat.mod_lt _ (by omega)
      rw [List.append_assoc, ih (n / 10) hd acc
        ([digitChar (n % 10)] ++ rest)]
      simp only [List.singleton_append, parseDigits,
        isDigitB_digitChar _ hm, if_true, digitChar_toNat _ hm,
        List.length_append, List.length_singleton]
      have harith : 10 * (acc * 10 ^ (natToDigits (n / 10)).length + n / 10)
          + (48 + n % 10 - 48)
          = acc * 10 ^ ((natToDigits (n / 10)).length + 1) + n := by
        rw [pow_succ]
        have hy : acc * (10 ^ (natToDigits (n / 10)).length * 10)
            = 10 * (acc * 10 ^ (natToDigits (n / 10)).length) := by ring
        rw [hy]
        omega
      rw [harith]
      rfl

theorem parseDigits_stop (acc : Nat) (rest : List Char)
    (h : headNotDigit rest = true) : parseDigits acc rest = (acc, rest) := by
  cases rest with
  | nil => rfl
  | cons c cs =>
    have hc : isDigitB c = false := by
      simpa [headNotDigit] using h
    simp [parseDigits, hc]

theorem parseNum_natPart (m : Nat) (rest : List Char)
    (h : headNotDigit rest = true) :
    parseDigits 0 (natToDigits m ++ rest) = (m, rest) := by
  rw [parseDigits_append m 0 rest, Nat.zero_mul, Nat.zero_add]
  exact parseDigits_stop m rest h

theorem parseNum_intToChars (n : Int) (rest : List Char)
    (h : headNotDigit rest = true) :
    parseNum (intToChars n ++ rest) = some (n, rest) := by
  rw [intToChars]
  split
  · rename_i hneg
    obtain ⟨c, t, hct⟩ : ∃ c t, natToDigits (-n).toNat = c :: t := by
      cases hnd : natToDigits (-n).toNat with
      | nil => exact absurd hnd (natToDigits_ne_nil _)
      | cons c t => exact ⟨c, t, rfl⟩
    have hcd : isDigitB c = true := by
      have := natToDigits_digits (-n).toNat c
        (hct ▸ List.mem_cons_self c t)
      rw [isDigitB]
      simp only [Bool.and_eq_true, decide_eq_true_eq]
      omega
    have key : natToDigits (-n).toNat ++ rest = c :: (t ++ rest) := by
      rw [hct]
      rfl
    simp only [List.cons_append, key, parseNum, if_pos rfl, hcd, if_true]
    rw [← key, parseNum_natPart _ rest h]
    have harith : -(Int.ofNat (-n).toNat) = n := by
      show -(((-n).toNat : Int)) = n
      omega
    rw [harith]
  · rename_i hneg
    obtain ⟨c, t, hct⟩ : ∃ c t, natToDigits n.toNat = c :: t := by
      cases hnd : natToDigits n.toNat with
      | nil => exact absurd hnd (natToDigits_ne_nil _)
      | cons c t => exact ⟨c, t, rfl⟩
    have hcb : 48 ≤ c.toNat ∧ c.toNat ≤ 57 :=
      natToDigits_digits n.toNat c (hct ▸ List.mem_cons_self c t)
    have hcd : isDigitB c = true := by
      rw [isDigitB]
      simp only [Bool.and_eq_true, decide_eq_true_eq]
      omega
    have hcm : c ≠ '-' := ne_of_toNat_ne c '-' (by
      have : ('-' : Char).toNat = 45 := by decide
      omega)
    have key : natToDigits n.toNat ++ rest = c :: (t ++ rest) := by
      rw [hct]
      rfl
    rw [key]
    simp only [parseNum, if_neg hcm, hcd, if_true]
    rw [← key, parseNum_natPart _ rest h]
    have harith : Int.ofNat n.toNat = n := by
      show ((n.toNat : Int)) = n
      omega
    rw [harith]

theorem hexVal_hexDigitChar (d : Nat) (h : d < 16) :
    hexVal (hexDigitChar d) = some d := by
  rw [hexDigitChar]
  split
  · rename_i h10
    have ht : (Char.ofNat (48 + d)).toNat = 48 + d :=
      toNat_ofNat_valid _ (Or.inl (by omega))
    have hc : (48 ≤ (Char.ofNat (48 + d)).toNat
        && (Char.ofNat (48 + d)).toNat ≤ 57) = true := by
      rw [ht]
      simp only [Bool.and_eq_true, decide_eq_true_eq]
      omega
    rw [hexVal, if_pos hc, ht]
    congr 1
    omega
  · rename_i h10
    have ht : (Char.ofNat (87 + d)).toNat = 87 + d :=
      toNat_ofNat_valid _ (Or.inl (by omega))
    have hc1 : (48 ≤ (Char.ofNat (87 + d)).toNat
        && (Char.ofNat (87 + d)).toNat ≤ 57) = false := by
      rw [ht]
      simp [show ¬(87 + d ≤ 57) by omega]
    have hc2 : (97 ≤ (Char.ofNat (87 + d)).toNat
        && (Char.ofNat (87 + d)).toNat ≤ 102) = true := by
      rw [ht]
      simp only [Bool.and_eq_true, decide_eq_true_eq]
      omega
    rw [hexVal, if_neg (by rw [hc1]; exact Bool.false_ne_true), if_pos hc2, ht]
    congr 1
    omega

theorem parse4Hex_hex4 (n : Nat) (h : n < 65536) (rest : List Char) :
    parse4Hex (hex4 n ++ rest) = some (n, rest) := by
  rw [hex4]
  simp only [List.cons_append, List.nil_append, parse4Hex,
    hexVal_hexDigitChar _ (Nat.mod_lt _ (by omega))]
  congr 1
  refine Prod.ext ?_ rfl
  show 4096 * (n / 4096 % 16) + 256 * (n / 256 % 16) + 16 * (n / 16 % 16)
      + n % 16 = n
  omega

/-- Decoding one escaped character inverts `escapeChar`. -/
theorem parseStringBody_escape (c : Char) (fuel : Nat) (tail : List Char) :
    parseStringBody (fuel + 1) (escapeChar c ++ tail)
      = (parseStringBody fuel tail).map (fun pr => (c :: pr.1, pr.2)) := by
  have hb1 : backslashChar ≠ quoteChar := by decide
  by_cases h1 : c = quoteChar
  · subst h1
    have hesc : escapeChar quoteChar = [backslashChar, quoteChar] := by decide
    rw [hesc]
    simp [parseStringBody, hb1]
  by_cases h2 : c = backslashChar
  · subst h2
    have hesc : escapeChar backslashChar = [backslashChar, backslashChar] := by
      decide
    rw [hesc]
    simp [parseStringBody, hb1]
  by_cases e8 : c.toNat = 8
  · rw [char_eq_ofNat_of_toNat c 8 e8]
    have hesc : escapeChar (Char.ofNat 8) = [backslashChar, 'b'] := by decide
    rw [hesc]
    simp [parseStringBody, hb1, show ('b' : Char) ≠ quoteChar by decide,
      show ('b' : Char) ≠ backslashChar by decide,
      show ('b' : Char) ≠ '/' by decide]
  by_cases e12 : c.toNat = 12
  · rw [char_eq_ofNat_of_toNat c 12 e12]
    have hesc : escapeChar (Char.ofNat 12) = [backslashChar, 'f'] := by decide
    rw [hesc]
    simp [parseStringBody, hb1, show ('f' : Char) ≠ quoteChar by decide,
      show ('f' : Char) ≠ backslashChar by decide,
      show ('f' : Char) ≠ '/' by decide,
      show ('f' : Char) ≠ 'b' by decide]
  by_cases e10 : c.toNat = 10
  · rw [char_eq_ofNat_of_toNat c 10 e10]
    have hesc : escapeChar (Char.ofNat 10) = [backslashChar, 'n'] := by decide
    rw [hesc]
    simp [parseStringBody, hb1, show ('n' : Char) ≠ quoteChar by decide,
      show ('n' : Char) ≠ backslashChar by decide,
      show ('n' : Char) ≠ '/' by decide, show ('n' : Char) ≠ 'b' by decide,
      show ('n' : Char) ≠ 'f' by decide]
  by_cases e13 : c.toNat = 13
  · rw [char_eq_ofNat_of_toNat c 13 e13]
    have hesc : escapeChar (Char.ofNat 13) = [backslashChar, 'r'] := by decide
    rw [hesc]
    simp [parseStringBody, hb1, show ('r' : Char) ≠ quoteChar by decide,
      show ('r' : Char) ≠ backslashChar by decide,
      show ('r' : Char) ≠ '/' by decide, show ('r' : Char) ≠ 'b' by decide,
      show ('r' : Char) ≠ 'f' by decide, show ('r' : Char) ≠ 'n' by decide]
  by_cases e9 : c.toNat = 9
  · rw [char_eq_ofNat_of_toNat c 9 e9]
    have hesc : escapeChar (Char.ofNat 9) = [backslashChar, 't'] := by decide
    rw [hesc]
    simp [parseStringBody, hb1, show ('t' : Char) ≠ quoteChar by decide,
      show ('t' : Char) ≠ backslashChar by decide,
      show ('t' : Char) ≠ '/' by decide, show ('t' : Char) ≠ 'b' by decide,
      show ('t' : Char) ≠ 'f' by decide, show ('t' : Char) ≠ 'n' by decide,
      show ('t' : Char) ≠ 'r' by decide]
  by_cases hrange : c.toNat < 32 ∨ 126 < c.toNat
  · -- escaped as \uXXXX (one or two quadruples)
    have hq34 : quoteChar.toNat = 34 := by decide
    have hb92 : backslashChar.toNat = 92 := by decide
    have hrangeB : (c.toNat < 32 || 126 < c.toNat) = true := by
      simp only [Bool.or_eq_true, decide_eq_true_eq]
      omega
    have hesc8 : (c.toNat == 8) = false := by simp [e8]
    have hesc12 : (c.toNat == 12) = false := by simp [e12]
    have hesc10 : (c.toNat == 10) = false := by simp [e10]
    have hesc13 : (c.toNat == 13) = false := by simp [e13]
    have hesc9 : (c.toNat == 9) = false := by simp [e9]
    have hu1 : ('u' : Char) ≠ quoteChar := by decide
    have hu2 : ('u' : Char) ≠ backslashChar := by decide
    have hu3 : ('u' : Char) ≠ '/' := by decide
    have hu4 : ('u' : Char) ≠ 'b' := by decide
    have hu5 : ('u' : Char) ≠ 'f' := by decide
    have hu6 : ('u' : Char) ≠ 'n' := by decide
    have hu7 : ('u' : Char) ≠ 'r' := by decide
    have hu8 : ('u' : Char) ≠ 't' := by decide
    rw [escapeChar, if_neg h1, if_neg h2, hesc8, hesc12, hesc10, hesc13,
      hesc9]
    simp only [Bool.false_eq_true, if_false, hrangeB, if_true]
    by_cases hbmp : c.toNat < 65536
    · rw [if_pos hbmp]
      have hsur : (55296 ≤ c.toNat && c.toNat ≤ 56319) = false := by
        rcases char_toNat_bounds c with hlow | ⟨hhi, _⟩
        · simp only [Bool.and_eq_false_iff, decide_eq_false_iff_not, not_le]
          left
          omega
        · simp only [Bool.and_eq_false_iff, decide_eq_false_iff_not, not_le]
          right
          omega
      simp only [List.cons_append, List.append_assoc]
      rw [parseStringBody.eq_def]
      dsimp only
      rw [if_neg hb1, if_pos rfl, if_neg hu1, if_neg hu2, if_neg hu3,
        if_neg hu4, if_neg hu5, if_neg hu6, if_neg hu7, if_neg hu8]
      rw [parse4Hex_hex4 _ hbmp]
      dsimp only
      have hnot : ¬((55296 ≤ c.toNat && c.toNat ≤ 56319) = true) := by
        simp only [hsur]
        exact Bool.false_ne_true
      rw [if_neg hnot, Char.ofNat_toNat]
      simp
    · rw [if_neg hbmp]
      have hcap : c.toNat < 1114112 := by
        rcases char_toNat_bounds c with hlow | ⟨_, h2c⟩
        · omega
        · omega
      have hhiB : 55296 + (c.toNat - 65536) / 1024 < 65536 := by omega
      have hloB : 56320 + (c.toNat - 65536) % 1024 < 65536 := by omega
      simp only [List.cons_append, List.append_assoc]
      rw [parseStringBody.eq_def]
      dsimp only
      rw [if_neg hb1, if_pos rfl, if_neg hu1, if_neg hu2, if_neg hu3,
        if_neg hu4, if_neg hu5, if_neg hu6, if_neg hu7, if_neg hu8]
      rw [parse4Hex_hex4 _ hhiB]
      have hsur : (55296 ≤ 55296 + (c.toNat - 65536) / 1024
          && 55296 + (c.toNat - 65536) / 1024 ≤ 56319) = true := by
        simp only [Bool.and_eq_true, decide_eq_true_eq]
        omega
      dsimp only
      rw [if_pos hsur]
      rw [if_pos (by decide : (decide (backslashChar = backslashChar)
        && decide (('u' : Char) = 'u')) = true)]
      rw [parse4Hex_hex4 _ hloB]
      have hsur2 : (56320 ≤ 56320 + (c.toNat - 65536) % 1024
          && 56320 + (c.toNat - 65536) % 1024 ≤ 57343) = true := by
        simp only [Bool.and_eq_true, decide_eq_true_eq]
        omega
      dsimp only
      rw [if_pos hsur2]
      have harith : 65536 + (55296 + (c.toNat - 65536) / 1024 - 55296) * 1024
          + (56320 + (c.toNat - 65536) % 1024 - 56320) = c.toNat := by
        have h1x : (55296 + (c.toNat - 65536) / 1024 - 55296)
            = (c.toNat - 65536) / 1024 := by omega
        have h2x : (56320 + (c.toNat - 65536) % 1024 - 56320)
            = (c.toNat - 65536) % 1024 := by omega
        rw [h1x, h2x]
        omega
      rw [harith, Char.ofNat_toNat]
      simp
  · -- printable ASCII other than quote and backslash: kept verbatim
    have hesc : escapeChar c = [c] := by
      rw [escapeChar, if_neg h1, if_neg h2]
      have g8 : (c.toNat == 8) = false := by simp [e8]
      have g12 : (c.toNat == 12) = false := by simp [e12]
      have g10 : (c.toNat == 10) = false := by simp [e10]
      have g13 : (c.toNat == 13) = false := by simp [e13]
      have g9 : (c.toNat == 9) = false := by simp [e9]
      rw [g8, g12, g10, g13, g9]
      simp only [Bool.false_eq_true, if_false]
      have hrangeB : (c.toNat < 32 || 126 < c.toNat) = false := by
        simp only [Bool.or_eq_false_iff, decide_eq_false_iff_not, not_lt]
        omega
      rw [hrangeB]
      simp
    rw [hesc]
    simp only [List.cons_append, List.nil_append, parseStringBody]
    rw [if_neg h1, if_neg h2]

/-- Each character escapes to at least one output character. -/
theorem escapeChar_length_pos (c : Char) : 1 ≤ (escapeChar c).length := by
  rw [escapeChar]
  split
  · simp
  split
  · simp
  split
  · simp
  split
  · simp
  split
  · simp
  split
  · simp
  split
  · simp
  split
  · split
    · simp
    · simp
  · simp

theorem encodeStringChars_length (s : List Char) :
    s.length ≤ (encodeStringChars s).length := by
  induction s with
  | nil => simp [encodeStringChars]
  | cons c t ih =>
    simp only [encodeStringChars, List.map_cons, List.flatten_cons,
      List.length_append, List.length_cons]
    have := escapeChar_length_pos c
    rw [encodeStringChars] at ih
    omega

/-- Decoding a string literal body inverts the encoder. -/
theorem parseStringBody_encode (s : List Char) : ∀ (fuel : Nat)
    (rest : List Char), s.length + 1 ≤ fuel →
    parseStringBody fuel (encodeStringChars s ++ (quoteChar :: rest))
      = some (s, rest) := by
  induction s with
  | nil =>
    intro fuel rest hf
    cases fuel with
    | zero => omega
    | succ f =>
      simp [encodeStringChars, parseStringBody]
  | cons c t ih =>
    intro fuel rest hf
    cases fuel with
    | zero => omega
    | succ f =>
      simp only [encodeStringChars, List.map_cons, List.flatten_cons,
        List.append_assoc]
      rw [show ((t.map escapeChar).flatten ++ (quoteChar :: rest))
          = encodeStringChars t ++ (quoteChar :: rest) from rfl]
      rw [parseStringBody_escape c f _]
      rw [ih f rest (by simpa using hf)]
      rfl

theorem jsize_pos (v : JValue) : 1 ≤ jsize v := by
  cases v <;> simp [jsize]

theorem skipWs_cons_not_ws (c : Char) (t : List Char) (h : isWsB c = false) :
    skipWs (c :: t) = c :: t := by
  simp [skipWs, h]

theorem skipWs_append_ws (sp t : List Char) (h : ∀ c ∈ sp, isWsB c = true) :
    skipWs (sp ++ t) = skipWs t := by
  induction sp with
  | nil => rfl
  | cons c cs ih =>
    have hc := h c (List.mem_cons_self c cs)
    simp only [List.cons_append, skipWs, hc, if_true]
    exact ih (fun d hd => h d (List.mem_cons_of_mem c hd))

/-- Characters a dumped value can start with. -/
def goodStartB (c : Char) : Bool :=
  c == 'n' || c == 't' || c == 'f' || c == quoteChar || c == '[' || c == lbrace
    || c == '-' || isDigitB c

theorem goodStart_facts (c : Char) (h : goodStartB c = true) :
    isWsB c = false ∧ c ≠ ']' ∧ c ≠ rbrace ∧ c ≠ ',' := by
  rw [goodStartB] at h
  simp only [Bool.or_eq_true, beq_iff_eq] at h
  rcases h with ((((((h | h) | h) | h) | h) | h) | h) | h
  · subst h
    exact ⟨by decide, by decide, by decide, by decide⟩
  · subst h
    exact ⟨by decide, by decide, by decide, by decide⟩
  · subst h
    exact ⟨by decide, by decide, by decide, by decide⟩
  · subst h
    exact ⟨by decide, by decide, by decide, by decide⟩
  · subst h
    exact ⟨by decide, by decide, by decide, by decide⟩
  · subst h
    exact ⟨by decide, by decide, by decide, by decide⟩
  · subst h
    exact ⟨by decide, by decide, by decide, by decide⟩
  · have hb : 48 ≤ c.toNat ∧ c.toNat ≤ 57 := by
      simpa [isDigitB, Bool.and_eq_true, decide_eq_true_eq] using h
    refine ⟨?_, ?_, ?_, ?_⟩
    · rw [isWsB]
      simp only [Bool.or_eq_false_iff, beq_eq_false_iff_ne, ne_eq]
      refine ⟨⟨⟨?_, ?_⟩, ?_⟩, ?_⟩ <;> omega
    · exact ne_of_toNat_ne _ _ (by
        rw [show (']' : Char).toNat = 93 from rfl]
        omega)
    · exact ne_of_toNat_ne _ _ (by
        rw [show rbrace.toNat = 125 by decide]
        omega)
    · exact ne_of_toNat_ne _ _ (by
        rw [show (',' : Char).toNat = 44 from rfl]
        omega)

theorem numStart_facts (c : Char) (h : c = '-' ∨ isDigitB c = true) :
    c ≠ 'n' ∧ c ≠ 't' ∧ c ≠ 'f' ∧ c ≠ quoteChar ∧ c ≠ '[' ∧ c ≠ lbrace
      ∧ isWsB c = false := by
  rcases h with rfl | h
  · exact ⟨by decide, by decide, by decide, by decide, by decide, by decide,
      by decide⟩
  · have hb : 48 ≤ c.toNat ∧ c.toNat ≤ 57 := by
      simpa [isDigitB, Bool.and_eq_true, decide_eq_true_eq] using h
    refine ⟨?_, ?_, ?_, ?_, ?_, ?_, ?_⟩
    · exact ne_of_toNat_ne _ _ (by
        rw [show ('n' : Char).toNat = 110 from rfl]
        omega)
    · exact ne_of_toNat_ne _ _ (by
        rw [show ('t' : Char).toNat = 116 from rfl]
        omega)
    · exact ne_of_toNat_ne _ _ (by
        rw [show ('f' : Char).toNat = 102 from rfl]
        omega)
    · exact ne_of_toNat_ne _ _ (by
        rw [show quoteChar.toNat = 34 by decide]
        omega)
    · exact ne_of_toNat_ne _ _ (by
        rw [show ('[' : Char).toNat = 91 from rfl]
        omega)
    · exact ne_of_toNat_ne _ _ (by
        rw [show lbrace.toNat = 123 by decide]
        omega)
    · rw [isWsB]
      simp only [Bool.or_eq_false_iff, beq_eq_false_iff_ne, ne_eq]
      refine ⟨⟨⟨?_, ?_⟩, ?_⟩, ?_⟩ <;> omega

theorem dumpVal_head (v : JValue) :
    ∃ c t, dumpVal v = c :: t ∧ goodStartB c = true := by
  cases v with
  | null => exact ⟨'n', _, rfl, by decide⟩
  | bool b =>
    cases b with
    | true => exact ⟨'t', _, rfl, by decide⟩
    | false => exact ⟨'f', _, rfl, by decide⟩
  | num n =>
    show ∃ c t, intToChars n = c :: t ∧ goodStartB c = true
    rw [intToChars]
    split
    · exact ⟨'-', _, rfl, by decide⟩
    · obtain ⟨c, t, hct⟩ := List.exists_cons_of_ne_nil (natToDigits_ne_nil n.toNat)
      have hd : isDigitB c = true := by
        have := natToDigits_digits n.toNat c (hct ▸ List.mem_cons_self c t)
        rw [isDigitB]
        simp only [Bool.and_eq_true, decide_eq_true_eq]
        omega
      refine ⟨c, t, hct, ?_⟩
      rw [goodStartB]
      simp [hd]
  | str s => exact ⟨quoteChar, _, rfl, by decide⟩
  | arr xs => exact ⟨'[', _, rfl, by decide⟩
  | obj fs => exact ⟨lbrace, _, rfl, by decide⟩

/-- Combined printer/parser round-trip statement, proved by strong
induction on a bound for the printed value's size. -/
theorem parse_dump_all (N : Nat) :
    (∀ v : JValue, jsize v ≤ N → ∀ (fuel : Nat) (sp rest : List Char),
       jsize v ≤ fuel → (∀ c ∈ sp, isWsB c = true) →
       headNotDigit rest = true →
       parseVal fuel (sp ++ (dumpVal v ++ rest)) = some (v, rest))
    ∧ (∀ xs : List JValue, xs ≠ [] → jsizeElems xs ≤ N →
       ∀ (fuel : Nat) (sp rest : List Char),
       jsizeElems xs ≤ fuel → (∀ c ∈ sp, isWsB c = true) →
       parseElems fuel (sp ++ (dumpElems xs ++ (']' :: rest)))
         = some (xs, rest))
    ∧ (∀ fs : List (String × JValue), fs ≠ [] → jsizeFields fs ≤ N →
       ∀ (fuel : Nat) (sp rest : List Char),
       jsizeFields fs ≤ fuel → (∀ c ∈ sp, isWsB c = true) →
       parseFields fuel (sp ++ (dumpFields fs ++ (rbrace :: rest)))
         = some (fs, rest)) := by
  induction N using Nat.strong_induction_on with
  | _ N ih =>
  refine ⟨?_, ?_, ?_⟩
  · intro v hN fuel sp rest hf hsp hrest
    cases fuel with
    | zero =>
      have := jsize_pos v
      omega
    | succ f =>
      cases v with
      | null =>
        rw [parseVal.eq_def]
        dsimp only
        rw [show dumpVal .null ++ rest = 'n' :: ('u' :: 'l' :: 'l' :: rest)
          from rfl]
        rw [skipWs_append_ws sp _ hsp, skipWs_cons_not_ws _ _ (by decide)]
        simp
      | bool b =>
        cases b with
        | true =>
          rw [parseVal.eq_def]
          dsimp only
          rw [show dumpVal (.bool true) ++ rest
            = 't' :: ('r' :: 'u' :: 'e' :: rest) from rfl]
          rw [skipWs_append_ws sp _ hsp, skipWs_cons_not_ws _ _ (by decide)]
          simp
        | false =>
          rw [parseVal.eq_def]
          dsimp only
          rw [show dumpVal (.bool false) ++ rest
            = 'f' :: ('a' :: 'l' :: 's' :: 'e' :: rest) from rfl]
          rw [skipWs_append_ws sp _ hsp, skipWs_cons_not_ws _ _ (by decide)]
          simp
      | num n =>
        obtain ⟨c, t, hct, hcgood⟩ : ∃ c t, intToChars n = c :: t
            ∧ (c = '-' ∨ isDigitB c = true) := by
          rw [intToChars]
          split
          · exact ⟨'-', _, rfl, Or.inl rfl⟩
          · obtain ⟨c, t, hct⟩ :=
              List.exists_cons_of_ne_nil (natToDigits_ne_nil n.toNat)
            have hd : isDigitB c = true := by
              have := natToDigits_digits n.toNat c
                (hct ▸ List.mem_cons_self c t)
              rw [isDigitB]
              simp only [Bool.and_eq_true, decide_eq_true_eq]
              omega
            exact ⟨c, t, hct, Or.inr hd⟩
        obtain ⟨hn1, hn2, hn3, hn4, hn5, hn6, hnws⟩ := numStart_facts c hcgood
        have hsplit : dumpVal (.num n) ++ rest = c :: (t ++ rest) := by
          show intToChars n ++ rest = c :: (t ++ rest)
          rw [hct]
          rfl
        rw [parseVal.eq_def]
        dsimp only
        rw [hsplit, skipWs_append_ws sp _ hsp, skipWs_cons_not_ws _ _ hnws]
        dsimp only
        rw [if_neg hn1, if_neg hn2, if_neg hn3, if_neg hn4, if_neg hn5,
          if_neg hn6]
        rw [show (c :: (t ++ rest)) = intToChars n ++ rest from hsplit.symm,
          parseNum_intToChars n rest hrest]
      | str s =>
        have hstr : dumpVal (.str s) ++ rest
            = quoteChar :: (encodeStringChars s.data ++ (quoteChar :: rest)) := by
          simp [dumpVal, encodeString]
        rw [parseVal.eq_def]
        dsimp only
        rw [hstr, skipWs_append_ws sp _ hsp,
          skipWs_cons_not_ws _ _ (by decide)]
        dsimp only
        rw [if_neg (by decide), if_neg (by decide), if_neg (by decide),
          if_pos rfl]
        have hlen : s.data.length + 1
            ≤ (encodeStringChars s.data ++ (quoteChar :: rest)).length + 1 := by
          rw [List.length_append]
          have := encodeStringChars_length s.data
          omega
        rw [parseStringBody_encode s.data _ rest hlen]
      | arr xs =>
        cases xs with
        | nil =>
          rw [parseVal.eq_def]
          dsimp only
          rw [show dumpVal (.arr []) ++ rest = '[' :: (']' :: rest) from rfl]
          rw [skipWs_append_ws sp _ hsp, skipWs_cons_not_ws _ _ (by decide)]
          dsimp only
          rw [if_neg (by decide), if_neg (by decide), if_neg (by decide),
            if_neg (by decide), if_pos rfl,
            skipWs_cons_not_ws _ _ (by decide)]
          simp
        | cons x xs' =>
          obtain ⟨c, t, hct, hg⟩ := dumpVal_head x
          obtain ⟨hgws, hgrb, hgrbr, hgc⟩ := goodStart_facts c hg
          obtain ⟨u, hu⟩ : ∃ u, dumpElems (x :: xs') = dumpVal x ++ u := by
            cases xs' with
            | nil => exact ⟨[], by simp [dumpElems]⟩
            | cons y ys => exact ⟨_, rfl⟩
          have hfold : dumpElems (x :: xs') ++ (']' :: rest)
              = c :: (t ++ (u ++ (']' :: rest))) := by
            rw [hu, hct]
            simp [List.append_assoc]
          have harr : dumpVal (.arr (x :: xs')) ++ rest
              = '[' :: (dumpElems (x :: xs') ++ (']' :: rest)) := by
            show ('[' :: dumpElems (x :: xs') ++ [']']) ++ rest = _
            simp [List.append_assoc]
          rw [parseVal.eq_def]
          dsimp only
          rw [harr, skipWs_append_ws sp _ hsp,
            skipWs_cons_not_ws _ _ (by decide)]
          dsimp only
          rw [if_neg (by decide), if_neg (by decide), if_neg (by decide),
            if_neg (by decide), if_pos rfl]
          rw [hfold, skipWs_cons_not_ws _ _ hgws]
          dsimp only
          rw [if_neg hgrb]
          have hone : jsize (JValue.arr (x :: xs'))
              = jsizeElems (x :: xs') + 1 := by
            simp [jsize]
          have hlt : N - 1 < N := by omega
          have hrec := (ih (N - 1) hlt).2.1 (x :: xs') (by simp)
            (by omega) f [] rest (by omega) (by intro d hd; simp at hd)
          simp only [List.nil_append] at hrec
          rw [← hfold, hrec]
      | obj fs =>
        cases fs with
        | nil =>
          rw [parseVal.eq_def]
          dsimp only
          rw [show dumpVal (.obj []) ++ rest = lbrace :: (rbrace :: rest)
            from rfl]
          rw [skipWs_append_ws sp _ hsp, skipWs_cons_not_ws _ _ (by decide)]
          dsimp only
          rw [if_neg (by decide), if_neg (by decide), if_neg (by decide),
            if_neg (by decide), if_neg (by decide), if_pos rfl,
            skipWs_cons_not_ws _ _ (by decide)]
          simp
        | cons p fs' =>
          obtain ⟨u, hu⟩ : ∃ u, dumpFields (p :: fs')
              = quoteChar :: (encodeStringChars p.1.data ++ u) := by
            cases fs' with
            | nil =>
              rcases p with ⟨k, v⟩
              refine ⟨quoteChar :: (':' :: ' ' :: dumpVal v), ?_⟩
              show encodeString k ++ (':' :: ' ' :: dumpVal v) = _
              simp [encodeString, List.append_assoc]
            | cons q fs'' =>
              rcases p with ⟨k, v⟩
              refine ⟨quoteChar :: (':' :: ' ' :: dumpVal v)
                ++ (',' :: ' ' :: dumpFields (q :: fs'')), ?_⟩
              show encodeString k ++ (':' :: ' ' :: dumpVal v)
                ++ (',' :: ' ' :: dumpFields (q :: fs'')) = _
              simp [encodeString, List.append_assoc]
          have hobj : dumpVal (.obj (p :: fs')) ++ rest
              = lbrace :: (dumpFields (p :: fs') ++ (rbrace :: rest)) := by
            show (lbrace :: dumpFields (p :: fs') ++ [rbrace]) ++ rest = _
            simp [List.append_assoc]
          have hfold : dumpFields (p :: fs') ++ (rbrace :: rest)
              = quoteChar :: ((encodeStringChars p.1.data ++ u)
                ++ (rbrace :: rest)) := by
            rw [hu]
            rfl
          rw [parseVal.eq_def]
          dsimp only
          rw [hobj, skipWs_append_ws sp _ hsp,
            skipWs_cons_not_ws _ _ (by decide)]
          dsimp only
          rw [if_neg (by decide), if_neg (by decide), if_neg (by decide),
            if_neg (by decide), if_neg (by decide), if_pos rfl]
          rw [hfold, skipWs_cons_not_ws _ _ (by decide)]
          dsimp only
          rw [if_neg (by decide)]
          have hone : jsize (JValue.obj (p :: fs'))
              = jsizeFields (p :: fs') + 1 := by
            simp [jsize]
          have hlt : N - 1 < N := by omega
          have hrec := (ih (N - 1) hlt).2.2 (p :: fs') (by simp)
            (by omega) f [] rest (by omega) (by intro d hd; simp at hd)
          simp only [List.nil_append] at hrec
          rw [← hfold, hrec]
  · intro xs hne hN fuel sp rest hf hsp
    cases xs with
    | nil => exact absurd rfl hne
    | cons x xs' =>
      have hone : jsizeElems (x :: xs') = jsize x + jsizeElems xs' + 1 := by
        simp [jsizeElems]
      cases fuel with
      | zero => omega
      | succ f =>
        have hlt : N - 1 < N := by omega
        have hx : jsize x ≤ f + 1 := by omega
        have hxN : jsize x ≤ N - 1 := by omega
        rw [parseElems.eq_def]
        dsimp only
        cases xs' with
        | nil =>
          rw [show dumpElems [x] = dumpVal x from by simp [dumpElems]]
          rw [(ih (N - 1) hlt).1 x hxN (f + 1) sp (']' :: rest) hx hsp
            (by rfl)]
          dsimp only
          rw [skipWs_cons_not_ws _ _ (by decide)]
          dsimp only
          rw [if_neg (by decide), if_pos rfl]
        | cons y ys =>
          have hsplit : dumpElems (x :: y :: ys) ++ (']' :: rest)
              = dumpVal x ++ (',' :: ' ' :: (dumpElems (y :: ys)
                ++ (']' :: rest))) := by
            show (dumpVal x ++ (',' :: ' ' :: dumpElems (y :: ys)))
              ++ (']' :: rest) = _
            simp [List.append_assoc]
          rw [hsplit,
            (ih (N - 1) hlt).1 x hxN (f + 1) sp _ hx hsp (by rfl)]
          dsimp only
          rw [skipWs_cons_not_ws _ _ (by decide)]
          dsimp only
          rw [if_pos rfl]
          have hp := jsize_pos x
          have hys : jsizeElems (y :: ys) ≤ f := by omega
          have hysN : jsizeElems (y :: ys) ≤ N - 1 := by omega
          have hrec := (ih (N - 1) hlt).2.1 (y :: ys) (by simp) hysN f
            [' '] rest hys (by decide)
          simp only [List.cons_append, List.nil_append] at hrec
          rw [hrec]
  · intro fs hne hN fuel sp rest hf hsp
    cases fs with
    | nil => exact absurd rfl hne
    | cons p fs' =>
      rcases p with ⟨k, v⟩
      have hone : jsizeFields ((k, v) :: fs')
          = jsize v + jsizeFields fs' + 1 := by
        simp [jsizeFields]
      cases fuel with
      | zero => omega
      | succ f =>
        have hlt : N - 1 < N := by omega
        have hv : jsize v ≤ f + 1 := by omega
        have hvN : jsize v ≤ N - 1 := by omega
        rw [parseFields.eq_def]
        dsimp only
        cases fs' with
        | nil =>
          have hsplit : dumpFields [(k, v)] ++ (rbrace :: rest)
              = quoteChar :: (encodeStringChars k.data
                ++ (quoteChar :: (':' :: ' ' :: (dumpVal v
                  ++ (rbrace :: rest))))) := by
            show (encodeString k ++ (':' :: ' ' :: dumpVal v))
              ++ (rbrace :: rest) = _
            simp [encodeString, List.append_assoc]
          rw [hsplit, skipWs_append_ws sp _ hsp,
            skipWs_cons_not_ws _ _ (by decide)]
          dsimp only
          rw [if_pos rfl]
          have hlen : k.data.length + 1
              ≤ (encodeStringChars k.data ++ (quoteChar :: (':' :: ' '
                :: (dumpVal v ++ (rbrace :: rest))))).length + 1 := by
            rw [List.length_append]
            have := encodeStringChars_length k.data
            omega
          rw [parseStringBody_encode k.data _ _ hlen]
          dsimp only
          rw [skipWs_cons_not_ws _ _ (by decide)]
          dsimp only
          rw [if_pos rfl]
          have hval := (ih (N - 1) hlt).1 v hvN (f + 1) [' ']
            (rbrace :: rest) hv (by decide) (by rfl)
          simp only [List.cons_append, List.nil_append] at hval
          rw [hval]
          dsimp only
          rw [skipWs_cons_not_ws _ _ (by decide)]
          dsimp only
          rw [if_neg (by decide), if_pos rfl]
        | cons q fs'' =>
          have hsplit : dumpFields ((k, v) :: q :: fs'') ++ (rbrace :: rest)
              = quoteChar :: (encodeStringChars k.data
                ++ (quoteChar :: (':' :: ' ' :: (dumpVal v
                  ++ (',' :: ' ' :: (dumpFields (q :: fs'')
                    ++ (rbrace :: rest))))))) := by
            show (encodeString k ++ (':' :: ' ' :: dumpVal v)
                ++ (',' :: ' ' :: dumpFields (q :: fs'')))
              ++ (rbrace :: rest) = _
            simp [encodeString, List.append_assoc]
          rw [hsplit, skipWs_append_ws sp _ hsp,
            skipWs_cons_not_ws _ _ (by decide)]
          dsimp only
          rw [if_pos rfl]
          have hlen : k.data.length + 1
              ≤ (encodeStringChars k.data ++ (quoteChar :: (':' :: ' '
                :: (dumpVal v ++ (',' :: ' ' :: (dumpFields (q :: fs'')
                  ++ (rbrace :: rest))))))).length + 1 := by
            rw [List.length_append]
            have := encodeStringChars_length k.data
            omega
          rw [parseStringBody_encode k.data _ _ hlen]
          dsimp only
          rw [skipWs_cons_not_ws _ _ (by decide)]
          dsimp only
          rw [if_pos rfl]
          have hval := (ih (N - 1) hlt).1 v hvN (f + 1) [' ']
            (',' :: ' ' :: (dumpFields (q :: fs'') ++ (rbrace :: rest))) hv
            (by decide) (by rfl)
          simp only [List.cons_append, List.nil_append] at hval
          rw [hval]
          dsimp only
          rw [skipWs_cons_not_ws _ _ (by decide)]
          dsimp only
          rw [if_pos rfl]
          have hp := jsize_pos v
          have hfs : jsizeFields (q :: fs'') ≤ f := by omega
          have hfsN : jsizeFields (q :: fs'') ≤ N - 1 := by omega
          have hrec := (ih (N - 1) hlt).2.2 (q :: fs'') (by simp) hfsN f
            [' '] rest hfs (by decide)
          simp only [List.cons_append, List.nil_append] at hrec
          rw [hrec]

/-- The value parser inverts the value printer (modulo leading JSON
whitespace and a non-digit continuation), given enough fuel. -/
theorem parseVal_dump (v : JValue) (fuel : Nat) (sp rest : List Char)
    (hf : jsize v ≤ fuel) (hsp : ∀ c ∈ sp, isWsB c = true)
    (hrest : headNotDigit rest = true) :
    parseVal fuel (sp ++ (dumpVal v ++ rest)) = some (v, rest) :=
  (parse_dump_all (jsize v)).1 v le_rfl fuel sp rest hf hsp hrest

theorem hexDigitChar_toNat_lt (d : Nat) (h : d < 16) :
    (hexDigitChar d).toNat < 128 := by
  rw [hexDigitChar]
  split
  · rw [toNat_ofNat_valid _ (Or.inl (by omega))]
    omega
  · rw [toNat_ofNat_valid _ (Or.inl (by omega))]
    omega

theorem hex4_ascii (n : Nat) : ∀ c ∈ hex4 n, c.toNat < 128 := by
  intro c hc
  rw [hex4] at hc
  simp only [List.mem_cons, List.not_mem_nil, or_false] at hc
  rcases hc with h | h | h | h <;>
    (subst h; exact hexDigitChar_toNat_lt _ (Nat.mod_lt _ (by omega)))

theorem escapeChar_ascii (c : Char) : ∀ d ∈ escapeChar c, d.toNat < 128 := by
  have hpair : ∀ (x y d : Char), x.toNat < 128 → y.toNat < 128 →
      d ∈ [x, y] → d.toNat < 128 := by
    intro x y d hx hy hm
    rcases List.mem_cons.mp hm with h | hm2
    · subst h; exact hx
    · rw [List.mem_singleton] at hm2; subst hm2; exact hy
  have hhex : ∀ (n : Nat) (d : Char), d ∈ backslashChar :: 'u' :: hex4 n →
      d.toNat < 128 := by
    intro n d hm
    rcases List.mem_cons.mp hm with h | hm2
    · subst h; decide
    rcases List.mem_cons.mp hm2 with h | hm3
    · subst h; decide
    exact hex4_ascii n d hm3
  intro d hd
  rw [escapeChar] at hd
  split at hd
  · exact hpair _ _ _ (by decide) (by decide) hd
  split at hd
  · exact hpair _ _ _ (by decide) (by decide) hd
  split at hd
  · exact hpair _ _ _ (by decide) (by decide) hd
  split at hd
  · exact hpair _ _ _ (by decide) (by decide) hd
  split at hd
  · exact hpair _ _ _ (by decide) (by decide) hd
  split at hd
  · exact hpair _ _ _ (by decide) (by decide) hd
  split at hd
  · exact hpair _ _ _ (by decide) (by decide) hd
  split at hd
  · split at hd
    · exact hhex _ _ hd
    · simp only [List.mem_append] at hd
      rcases hd with h | h
      · exact hhex _ _ h
      · exact hhex _ _ h
  · rw [List.mem_singleton] at hd
    subst hd
    rename_i hle
    simp only [Bool.or_eq_true, decide_eq_true_eq, not_or] at hle
    omega

theorem encodeStringChars_ascii (s : List Char) :
    ∀ d ∈ encodeStringChars s, d.toNat < 128 := by
  intro d hd
  rw [encodeStringChars, List.mem_flatten] at hd
  obtain ⟨l, hl, hdl⟩ := hd
  rw [List.mem_map] at hl
  obtain ⟨c, _, hc⟩ := hl
  rw [← hc] at hdl
  exact escapeChar_ascii c d hdl

theorem encodeString_ascii (k : String) :
    ∀ d ∈ encodeString k, d.toNat < 128 := by
  intro d hd
  rw [encodeString] at hd
  rcases List.mem_cons.mp hd with h | h
  · subst h; decide
  rcases List.mem_append.mp h with h | h
  · exact encodeStringChars_ascii _ d h
  · rw [List.mem_singleton] at h; subst h; decide

theorem intToChars_ne_nil (n : Int) : intToChars n ≠ [] := by
  rw [intToChars]
  split
  · simp
  · exact natToDigits_ne_nil _

theorem intToChars_ascii (n : Int) : ∀ d ∈ intToChars n, d.toNat < 128 := by
  intro d hd
  rw [intToChars] at hd
  split at hd
  · rcases List.mem_cons.mp hd with h | h
    · subst h; decide
    · have := natToDigits_digits _ d h
      omega
  · have := natToDigits_digits _ d hd
    omega

/-- Size bound and ASCII-ness of the printer output, by strong induction
on a size bound: each printed value gives the parser enough fuel, and
`json.dumps` with `ensure_ascii=True` emits only ASCII characters. -/
theorem dump_bounds_all (N : Nat) :
    (∀ v : JValue, jsize v ≤ N →
       jsize v ≤ (dumpVal v).length + 1 ∧ ∀ d ∈ dumpVal v, d.toNat < 128)
    ∧ (∀ xs : List JValue, jsizeElems xs ≤ N →
       jsizeElems xs ≤ (dumpElems xs).length + 2
         ∧ ∀ d ∈ dumpElems xs, d.toNat < 128)
    ∧ (∀ fs : List (String × JValue), jsizeFields fs ≤ N →
       jsizeFields fs ≤ (dumpFields fs).length + 2
         ∧ ∀ d ∈ dumpFields fs, d.toNat < 128) := by
  induction N using Nat.strong_induction_on with
  | _ N ih =>
  refine ⟨?_, ?_, ?_⟩
  · intro v hN
    cases v with
    | null => exact ⟨by decide, by decide⟩
    | bool b => cases b <;> exact ⟨by decide, by decide⟩
    | num n =>
      refine ⟨?_, intToChars_ascii n⟩
      show jsize (JValue.num n) ≤ (intToChars n).length + 1
      have h1 : jsize (JValue.num n) = 1 := by simp [jsize]
      omega
    | str s =>
      refine ⟨?_, encodeString_ascii s⟩
      have h1 : jsize (JValue.str s) = 1 := by simp [jsize]
      omega
    | arr xs =>
      cases xs with
      | nil => exact ⟨by decide, by decide⟩
      | cons x xs' =>
        have h1 : jsize (JValue.arr (x :: xs'))
            = jsizeElems (x :: xs') + 1 := by simp [jsize]
        have hlt : N - 1 < N := by omega
        have helems := (ih (N - 1) hlt).2.1 (x :: xs') (by omega)
        have hshape : dumpVal (JValue.arr (x :: xs'))
            = '[' :: (dumpElems (x :: xs') ++ [']']) := rfl
        constructor
        · rw [h1, hshape]
          simp only [List.length_cons, List.length_append,
            List.length_singleton]
          have := helems.1
          omega
        · intro d hd
          rw [hshape] at hd
          rcases List.mem_cons.mp hd with h | h
          · subst h; decide
          rcases List.mem_append.mp h with h | h
          · exact helems.2 d h
          · rw [List.mem_singleton] at h; subst h; decide
    | obj fs =>
      cases fs with
      | nil => exact ⟨by decide, by decide⟩
      | cons p fs' =>
        have h1 : jsize (JValue.obj (p :: fs'))
            = jsizeFields (p :: fs') + 1 := by simp [jsize]
        have hlt : N - 1 < N := by omega
        have hflds := (ih (N - 1) hlt).2.2 (p :: fs') (by omega)
        have hshape : dumpVal (JValue.obj (p :: fs'))
            = lbrace :: (dumpFields (p :: fs') ++ [rbrace]) := rfl
        constructor
        · rw [h1, hshape]
          simp only [List.length_cons, List.length_append,
            List.length_singleton]
          have := hflds.1
          omega
        · intro d hd
          rw [hshape] at hd
          rcases List.mem_cons.mp hd with h | h
          · subst h; decide
          rcases List.mem_append.mp h with h | h
          · exact hflds.2 d h
          · rw [List.mem_singleton] at h; subst h; decide
  · intro xs hN
    cases xs with
    | nil => exact ⟨by decide, by decide⟩
    | cons x xs' =>
      have h1 : jsizeElems (x :: xs') = jsize x + jsizeElems xs' + 1 := by
        simp [jsizeElems]
      have hlt : N - 1 < N := by omega
      have hx := (ih (N - 1) hlt).1 x (by omega)
      cases xs' with
      | nil =>
        have hshape : dumpElems [x] = dumpVal x := rfl
        have h0 : jsizeElems ([] : List JValue) = 0 := rfl
        constructor
        · rw [h1, hshape, h0]
          have := hx.1
          omega
        · intro d hd
          rw [hshape] at hd
          exact hx.2 d hd
      | cons y ys =>
        have hp := jsize_pos x
        have hys := (ih (N - 1) hlt).2.1 (y :: ys) (by omega)
        have hshape : dumpElems (x :: y :: ys)
            = dumpVal x ++ (',' :: ' ' :: dumpElems (y :: ys)) := rfl
        constructor
        · rw [h1, hshape]
          simp only [List.length_append, List.length_cons]
          have := hx.1
          have := hys.1
          omega
        · intro d hd
          rw [hshape] at hd
          rcases List.mem_append.mp hd with h | h
          · exact hx.2 d h
          rcases List.mem_cons.mp h with h | h
          · subst h; decide
          rcases List.mem_cons.mp h with h | h
          · subst h; decide
          · exact hys.2 d h
  · intro fs hN
    cases fs with
    | nil => exact ⟨by decide, by decide⟩
    | cons p fs' =>
      rcases p with ⟨k, v⟩
      have h1 : jsizeFields ((k, v) :: fs')
          = jsize v + jsizeFields fs' + 1 := by
        simp [jsizeFields]
      have hlt : N - 1 < N := by omega
      have hv := (ih (N - 1) hlt).1 v (by omega)
      cases fs' with
      | nil =>
        have hshape : dumpFields [(k, v)]
            = encodeString k ++ (':' :: ' ' :: dumpVal v) := rfl
        have h0 : jsizeFields ([] : List (String × JValue)) = 0 := rfl
        constructor
        · rw [h1, hshape, h0]
          simp only [List.length_append, List.length_cons]
          have := hv.1
          omega
        · intro d hd
          rw [hshape] at hd
          rcases List.mem_append.mp hd with h | h
          · exact encodeString_ascii k d h
          rcases List.mem_cons.mp h with h | h
          · subst h; decide
          rcases List.mem_cons.mp h with h | h
          · subst h; decide
          · exact hv.2 d h
      | cons q fs'' =>
        have hpv := jsize_pos v
        have hqf := (ih (N - 1) hlt).2.2 (q :: fs'') (by omega)
        have hshape : dumpFields ((k, v) :: q :: fs'')
            = encodeString k ++ (':' :: ' ' :: dumpVal v)
              ++ (',' :: ' ' :: dumpFields (q :: fs'')) := rfl
        constructor
        · rw [h1, hshape]
          simp only [List.length_append, List.length_cons]
          have := hv.1
          have := hqf.1
          omega
        · intro d hd
          rw [hshape] at hd
          rcases List.mem_append.mp hd with h | h
          · rcases List.mem_append.mp h with h | h
            · exact encodeString_ascii k d h
            rcases List.mem_cons.mp h with h | h
            · subst h; decide
            rcases List.mem_cons.mp h with h | h
            · subst h; decide
            · exact hv.2 d h
          · rcases List.mem_cons.mp h with h | h
            · subst h; decide
            rcases List.mem_cons.mp h with h | h
            · subst h; decide
            · exact hqf.2 d h

/-- `json.loads` inverts `json.dumps` on the embedded values. -/
theorem loads_dump (v : JValue) : loads (dumpVal v) = some v := by
  have hb := (dump_bounds_all (jsize v)).1 v le_rfl
  have hp := parseVal_dump v ((dumpVal v).length + 1) [] [] hb.1
    (by intro c hc; simp at hc) (by rfl)
  simp only [List.nil_append, List.append_nil] at hp
  rw [loads, hp]
  rfl

theorem utf8EncodeChar_ascii (c : Char) (h : c.toNat < 128) :
    utf8EncodeChar c = [c.toNat] := by
  simp [utf8EncodeChar, h]

theorem utf8Decode_encode_ascii (s : List Char)
    (h : ∀ c ∈ s, c.toNat < 128) : utf8Decode (utf8Encode s) = some s := by
  induction s with
  | nil =>
    rw [show utf8Encode [] = ([] : List Nat) from rfl]
    rw [utf8Decode]
  | cons c t ih =>
    have hc : c.toNat < 128 := h c (List.mem_cons_self c t)
    have ht : ∀ d ∈ t, d.toNat < 128 := fun d hd =>
      h d (List.mem_cons_of_mem c hd)
    rw [utf8Encode, List.map_cons, List.flatten_cons,
      utf8EncodeChar_ascii c hc]
    rw [show ((t.map utf8EncodeChar).flatten) = utf8Encode t from rfl]
    rw [List.singleton_append, utf8Decode.eq_def]
    dsimp only
    rw [if_pos hc, ih ht]
    simp [Char.ofNat_toNat]


theorem dumpVal_ne_nil (v : JValue) : dumpVal v ≠ [] := by
  cases v with
  | null => simp [dumpVal]
  | bool b => cases b <;> simp [dumpVal]
  | num n => exact intToChars_ne_nil n
  | str s =>
    show encodeString s ≠ []
    rw [encodeString]
    simp
  | arr xs => simp [dumpVal]
  | obj fs => simp [dumpVal]

theorem utf8Encode_cons_ne_nil (c : Char) (t : List Char) :
    utf8Encode (c :: t) ≠ [] := by
  rw [utf8Encode, List.map_cons, List.flatten_cons, utf8EncodeChar]
  split
  · simp
  split
  · simp
  split
  · simp
  · simp

theorem utf8Encode_dump_ne_nil (v : JValue) :
    utf8Encode (dumpVal v) ≠ [] := by
  obtain ⟨c, t, hct⟩ := List.exists_cons_of_ne_nil (dumpVal_ne_nil v)
  rw [hct]
  exact utf8Encode_cons_ne_nil c t

theorem unpack4LE_pack4LE (n : Nat) (h : n < 4294967296) :
    unpack4LE (n % 256) (n / 256 % 256) (n / 65536 % 256)
      (n / 16777216 % 256) = n := by
  rw [unpack4LE]
  omega

/-- C9: `native_write` followed by `native_read` on the peer returns the
same JSON value and leaves the rest of the byte stream untouched, for
every payload whose length fits the 4-byte little-endian prefix
(numbers are modelled as arbitrary-precision integers; floating-point
literals are outside the embedding). -/
theorem C9_frame_roundtrip (v : JValue) (rest : List Nat)
    (hlen : (utf8Encode (dumpVal v)).length < 4294967296) :
    native_read (native_write v ++ rest) = (some v, rest) := by
  have hasc : ∀ d ∈ dumpVal v, d.toNat < 128 :=
    ((dump_bounds_all (jsize v)).1 v le_rfl).2
  have hwrite : native_write v ++ rest
      = (utf8Encode (dumpVal v)).length % 256
        :: ((utf8Encode (dumpVal v)).length / 256 % 256
        :: ((utf8Encode (dumpVal v)).length / 65536 % 256
        :: ((utf8Encode (dumpVal v)).length / 16777216 % 256
        :: (utf8Encode (dumpVal v) ++ rest)))) := by
    rw [native_write]
    rw [pack4LE]
    simp [List.append_assoc]
  rw [hwrite, native_read]
  rw [unpack4LE_pack4LE _ hlen, List.take_left, List.drop_left]
  have hraw : ¬((utf8Encode (dumpVal v)).isEmpty = true) := by
    simp only [List.isEmpty_iff]
    exact utf8Encode_dump_ne_nil v
  rw [if_neg hraw, utf8Decode_encode_ascii (dumpVal v) hasc]
  show (loads (dumpVal v), rest) = (some v, rest)
  rw [loads_dump v]

/-- C9 witness: a concrete object framed, written and read back. -/
theorem C9_frame_roundtrip_witness :
    (utf8Encode (dumpVal (JValue.obj [("ok", JValue.bool true)]))).length
        < 4294967296
    ∧ native_read
        (native_write (JValue.obj [("ok", JValue.bool true)]) ++ [9, 9])
      = (some (JValue.obj [("ok", JValue.bool true)]), [9, 9]) :=
  ⟨by decide, C9_frame_roundtrip (JValue.obj [("ok", JValue.bool true)])
    [9, 9] (by decide)⟩

end WebRig
